/-
  Verification development for the mailfree email-body parsing and
  verification-code extraction engine.

  The definitions below are a shallow embedding of the JavaScript source:
  the server-side module email/parser (parseEmailBody, parseEntity,
  splitHeadersAndBody, parseHeaders, getBoundary, splitMultipart,
  decodeBody, decodeBodyWithCharset, decodeQuotedPrintable,
  guessHtmlFromRaw, escapeHtml, textToHtml, stripHtml,
  extractVerificationCode, normalizeDigits, isLikelyNonVerificationCode)
  and the client-side list-preview extractor extractCode
  (public/js/modules/app/ui-helpers.js).

  Modelling conventions:
  - JS strings are modelled as Lean String / List Char (code points).  The
    embedding is faithful for inputs made of Basic Multilingual Plane
    characters; lone surrogates and UTF-16 index artifacts of astral
    characters are outside the model.
  - JS regular expressions are modelled by a small syntax tree (RE) and a
    backtracking matcher (matchEnds / jsMatch) implementing the
    leftmost-first, ordered-alternation, greedy-quantifier semantics of the
    JS engine for exactly the constructs the source uses.
  - Platform primitives (TextDecoder, atob) are modelled as total Lean
    functions; TextDecoder is modelled for the utf-8 family of labels, with
    every other label taking the catch/fallback branch of the source.
  - The recursive entity resolver is modelled with an explicit fuel
    parameter (parseEntityF); fuel exhaustion is the Option.none channel.
    A theorem below shows fuel above the body length never runs out, which
    is the termination argument for the unbounded recursion of the source.
-/
import Mathlib

set_option maxRecDepth 20000
set_option maxHeartbeats 2000000

namespace Mailfree

/-! ## JS character and string primitives -/

/-- The character set matched by the JS regex class backslash-s and trimmed
by String.prototype.trim: ASCII whitespace, NBSP, Unicode space separators,
line/paragraph separators and the BOM. -/
def jsIsWhitespace (c : Char) : Bool :=
  c = '\t' ∨ c = '\n' ∨ c = Char.ofNat 11 ∨ c = Char.ofNat 12 ∨ c = '\r' ∨
  c = ' ' ∨ c = Char.ofNat 0xA0 ∨ c = Char.ofNat 0x1680 ∨
  (Char.ofNat 0x2000 ≤ c ∧ c ≤ Char.ofNat 0x200A) ∨
  c = Char.ofNat 0x2028 ∨ c = Char.ofNat 0x2029 ∨ c = Char.ofNat 0x202F ∨
  c = Char.ofNat 0x205F ∨ c = Char.ofNat 0x3000 ∨ c = Char.ofNat 0xFEFF

/-- Characters that the JS regex dot does not match (line terminators). -/
def jsIsLineTerm (c : Char) : Bool :=
  c = '\n' ∨ c = '\r' ∨ c = Char.ofNat 0x2028 ∨ c = Char.ofNat 0x2029

/-- ASCII model of String.prototype.toLowerCase (the source only relies on
ASCII case folding; CJK keyword characters are caseless). -/
def jsToLower (c : Char) : Char :=
  if 'A' ≤ c ∧ c ≤ 'Z' then Char.ofNat (c.toNat + 32) else c

def jsToLowerS (s : String) : String := String.mk (s.data.map jsToLower)

def trimStartChars (l : List Char) : List Char := l.dropWhile jsIsWhitespace

def trimEndChars (l : List Char) : List Char :=
  (l.reverse.dropWhile jsIsWhitespace).reverse

/-- String.prototype.trim on a character list. -/
def trimChars (l : List Char) : List Char := trimEndChars (trimStartChars l)

/-- String.prototype.trim. -/
def jsTrim (s : String) : String := String.mk (trimChars s.data)

/-- Does the pattern occur at the head of the list? -/
def leadMatch : List Char → List Char → Bool
  | [], _ => true
  | _ :: _, [] => false
  | a :: as, b :: bs => a = b && leadMatch as bs

/-- First index at which pat occurs in s (String.prototype.indexOf). -/
def idxOfAux (pat : List Char) : List Char → Nat → Option Nat
  | [], i => if leadMatch pat [] then some i else none
  | c :: rest, i =>
    if leadMatch pat (c :: rest) then some i else idxOfAux pat rest (i + 1)

def sIndexOf (s pat : String) : Option Nat := idxOfAux pat.data s.data 0

/-- Last index at which pat occurs in s (String.prototype.lastIndexOf). -/
def lastIdxAux (pat : List Char) : List Char → Nat → Option Nat → Option Nat
  | [], i, best => if leadMatch pat [] then some i else best
  | c :: rest, i, best =>
    lastIdxAux pat rest (i + 1)
      (if leadMatch pat (c :: rest) then some i else best)

def sLastIndexOf (s pat : String) : Option Nat := lastIdxAux pat.data s.data 0 none

/-- String.prototype.includes. -/
def sContains (s pat : String) : Bool := (sIndexOf s pat).isSome

/-- String.prototype.startsWith. -/
def sStarts (s pre : String) : Bool := leadMatch pre.data s.data

/-- String.prototype.slice with two non-negative indices (empty result when
the range is empty or inverted). -/
def jsSlice (s : String) (b e : Nat) : String :=
  String.mk ((s.data.drop b).take (e - b))

/-- String.prototype.slice from an index to the end. -/
def jsSliceFrom (s : String) (b : Nat) : String := String.mk (s.data.drop b)

/-- String.prototype.split on the regex backslash-r-question-backslash-n:
split at each newline, absorbing one carriage return directly before it. -/
def splitLinesCore : List Char → List Char → List (List Char)
  | [], acc => [acc.reverse]
  | '\r' :: '\n' :: rest, acc => acc.reverse :: splitLinesCore rest []
  | c :: rest, acc =>
    if c = '\n' then acc.reverse :: splitLinesCore rest []
    else splitLinesCore rest (c :: acc)

/-- Join with a newline separator (Array.prototype.join with a newline). -/
def joinNL : List (List Char) → List Char
  | [] => []
  | [x] => x
  | x :: rest => x ++ '\n' :: joinNL rest

/-! ## A model of the JS regex engine

Only the constructs used by the source are modelled: character classes,
concatenation, ordered alternation, greedy counted repetition, one capturing
group, lookahead (positive and negative), single-character negative
lookbehind, and the word-boundary assertion. -/

/-- Regex syntax trees. -/
inductive RE where
  | cls : (Char → Bool) → RE
  | seq : RE → RE → RE
  | alt : RE → RE → RE
  /-- Greedy repetition with a minimum count and an optional maximum
  (none meaning unbounded). -/
  | rep : Nat → Option Nat → RE → RE
  /-- The unique capturing group of a pattern. -/
  | grp : RE → RE
  /-- Positive lookahead. -/
  | la : RE → RE
  /-- Negative lookahead. -/
  | nla : RE → RE
  /-- Negative lookbehind on a single character class. -/
  | nlb : (Char → Bool) → RE
  /-- Word boundary. -/
  | wb : RE

/-- Matcher state: current position, and the span captured by the group so
far (start, end), if any. -/
abbrev MSt := Nat × Option (Nat × Nat)

/-- JS regex word characters (for the word-boundary assertion). -/
def isWordChar (c : Char) : Bool :=
  ('a' ≤ c ∧ c ≤ 'z') ∨ ('A' ≤ c ∧ c ≤ 'Z') ∨ ('0' ≤ c ∧ c ≤ '9') ∨ c = '_'

def decrMax : Option Nat → Option Nat
  | none => none
  | some m => some (m - 1)

/-- Greedy repetition driver: prefer one more iteration of step (each
iteration must advance the position), else stop once the minimum count is
met.  The fuel bounds the iteration count; it is initialised above the
string length, which a consuming step can never exhaust. -/
def repGo (step : MSt → List MSt) : Nat → Nat → Option Nat → MSt → List MSt
  | 0, mn, _, st => if mn = 0 then [st] else []
  | fuel + 1, mn, mx, st =>
    let canMore := match mx with
      | none => true
      | some m => 0 < m
    let more := if canMore then
        (step st).flatMap fun st' =>
          if st.1 < st'.1 then repGo step fuel (mn - 1) (decrMax mx) st' else []
      else []
    more ++ (if mn = 0 then [st] else [])

/-- All end states of a match of re starting at the given state, in the
depth-first preference order of a backtracking JS engine (the head of the
list is the match the engine reports). -/
def matchEnds (arr : List Char) : RE → MSt → List MSt
  | .cls p => fun st =>
    match arr.get? st.1 with
    | some c => if p c then [(st.1 + 1, st.2)] else []
    | none => []
  | .seq a b => fun st => (matchEnds arr a st).flatMap fun st' => matchEnds arr b st'
  | .alt a b => fun st => matchEnds arr a st ++ matchEnds arr b st
  | .rep mn mx r => fun st =>
    repGo (fun st' => matchEnds arr r st') (arr.length + 1) mn mx st
  | .grp r => fun st =>
    (matchEnds arr r st).map fun st' => (st'.1, some (st.1, st'.1))
  | .la r => fun st => if (matchEnds arr r st).isEmpty then [] else [st]
  | .nla r => fun st => if (matchEnds arr r st).isEmpty then [st] else []
  | .nlb p => fun st =>
    match st.1 with
    | 0 => [st]
    | i + 1 =>
      match arr.get? i with
      | some c => if p c then [] else [st]
      | none => [st]
  | .wb => fun st =>
    let prevW := match st.1 with
      | 0 => false
      | i + 1 =>
        match arr.get? i with
        | some c => isWordChar c
        | none => false
    let nextW := match arr.get? st.1 with
      | some c => isWordChar c
      | none => false
    if prevW ≠ nextW then [st] else []

/-- Scan start positions left to right (String.prototype.match without the
g flag): the countdown is the number of start positions left to try. -/
def jsMatchAux (arr : List Char) (re : RE) : Nat → Nat → Option (Nat × MSt)
  | 0, _ => none
  | fuel + 1, pos =>
    match matchEnds arr re (pos, none) with
    | st :: _ => some (pos, st)
    | [] => jsMatchAux arr re fuel (pos + 1)

/-- String.prototype.match: the start position and end state of the leftmost
match preferred by the backtracking engine, if any. -/
def jsMatch (re : RE) (s : String) : Option (Nat × MSt) :=
  jsMatchAux s.data re (s.data.length + 1) 0

/-- The string captured by group 1 of the leftmost match (the empty string
when the group did not participate), or none when there is no match. -/
def jsMatchG1 (re : RE) (s : String) : Option String :=
  (jsMatch re s).map fun r =>
    match r.2.2 with
    | some (a, b) => jsSlice s a b
    | none => ""

/-- RegExp.prototype.test. -/
def reTest (re : RE) (s : String) : Bool := (jsMatch re s).isSome

/-- A single character, optionally case-insensitive (the i flag; ASCII). -/
def clsFor (ci : Bool) (c : Char) : RE :=
  RE.cls fun x => if ci then jsToLower x = jsToLower c else x = c

/-- A regex that matches the empty string only. -/
def reEps : RE := RE.rep 0 (some 0) (RE.cls fun _ => false)

/-- A literal string, optionally case-insensitive. -/
def lit (ci : Bool) (s : String) : RE := go s.data
where
  go : List Char → RE
    | [] => reEps
    | [c] => clsFor ci c
    | c :: rest => RE.seq (clsFor ci c) (go rest)

/-- Ordered alternation of a non-empty list of alternatives. -/
def altN : List RE → RE
  | [] => reEps
  | [r] => r
  | r :: rest => RE.alt r (altN rest)

/-! ## Header parsing (email/parser: parseHeaders, splitHeadersAndBody)

A JS object used as a string map: assignment to an existing key replaces
its value.  Only hGet is observable downstream. -/

abbrev HeaderMap := List (String × String)

/-- headers[k], with the JS undefined-to-empty coercion applied by callers. -/
def hGet : HeaderMap → String → String
  | [], _ => ""
  | (k', v) :: rest, k => if k' = k then v else hGet rest k

/-- headers[k] = v (replacing an existing binding, as JS assignment does). -/
def hSet : HeaderMap → String → String → HeaderMap
  | [], k, v => [(k, v)]
  | (k', v') :: rest, k, v =>
    if k' = k then (k', v) :: rest else (k', v') :: hSet rest k v

/-- One header line, per the source regex: a caret, a group of one or more
non-colon characters, a colon, optional whitespace, a dot-star group, a
dollar.  The name is the non-empty run before the first colon; the value is
the suffix after the maximal whitespace run following the colon, and the
line fails to match when that suffix still contains a line terminator
(the JS dot does not match those). -/
def parseHeaderLine (l : List Char) : Option (String × String) :=
  let name := l.takeWhile (fun c => ¬ c = ':')
  if name = [] then none
  else
    match l.drop name.length with
    | ':' :: afterColon =>
      let v := afterColon.dropWhile jsIsWhitespace
      if v.any jsIsLineTerm then none
      else some (jsToLowerS (String.mk name), String.mk v)
    | _ => none

/-- Does the line start with whitespace (the continuation test)? -/
def lineStartsWs : List Char → Bool
  | [] => false
  | c :: _ => jsIsWhitespace c

/-- The sequential header fold of parseHeaders: a line starting with
whitespace while a previous key exists is appended (space-joined, trimmed)
to that key's value; a name-colon-value line starts a new header under the
lower-cased name; other lines are skipped. -/
def parseHeadersGo : List (List Char) → HeaderMap → String → HeaderMap
  | [], m, _ => m
  | l :: rest, m, lastKey =>
    if lineStartsWs l ∧ lastKey ≠ "" then
      parseHeadersGo rest
        (hSet m lastKey (hGet m lastKey ++ " " ++ String.mk (trimChars l))) lastKey
    else
      match parseHeaderLine l with
      | some (k, v) => parseHeadersGo rest (hSet m k v) k
      | none => parseHeadersGo rest m lastKey

def parseHeaders (rawHeaders : String) : HeaderMap :=
  parseHeadersGo (splitLinesCore rawHeaders.data []) [] ""

/-- splitHeadersAndBody: split at the first CRLFCRLF, else the first LFLF;
with no blank line the whole input is the body and the headers are empty. -/
def splitHeadersAndBody (input : String) : HeaderMap × String :=
  match sIndexOf input "\r\n\r\n" with
  | some i => (parseHeaders (jsSlice input 0 i), jsSliceFrom input (i + 4))
  | none =>
    match sIndexOf input "\n\n" with
    | some j => (parseHeaders (jsSlice input 0 j), jsSliceFrom input (j + 2))
    | none => ([], input)

/-! ## Boundary and charset parameter extraction -/

def wsStar : RE := RE.rep 0 none (RE.cls jsIsWhitespace)

/-- The boundary parameter regex of getBoundary: the word boundary (in the
literal sense), optional whitespace, an equals sign, optional whitespace, an
optional double quote, then a captured run of characters other than double
quote, semicolon, CR and LF, then an optional double quote; i flag. -/
def boundaryRE : RE :=
  RE.seq (lit true "boundary") (RE.seq wsStar (RE.seq (clsFor false '=')
    (RE.seq wsStar (RE.seq (RE.rep 0 (some 1) (clsFor false '"'))
      (RE.seq (RE.grp (RE.rep 1 none
          (RE.cls fun c => ¬(c = '"' ∨ c = ';' ∨ c = '\r' ∨ c = '\n'))))
        (RE.rep 0 (some 1) (clsFor false '"')))))))

def getBoundary (contentType : String) : String :=
  if contentType = "" then ""
  else
    match jsMatchG1 boundaryRE contentType with
    | some g => jsTrim g
    | none => ""

/-- The charset parameter regex of decodeBodyWithCharset: charset, optional
whitespace, equals, optional whitespace, optional quote, then a captured run
of characters other than double quote and semicolon; i flag. -/
def charsetRE : RE :=
  RE.seq (lit true "charset") (RE.seq wsStar (RE.seq (clsFor false '=')
    (RE.seq wsStar (RE.seq (RE.rep 0 (some 1) (clsFor false '"'))
      (RE.grp (RE.rep 1 none (RE.cls fun c => ¬(c = '"' ∨ c = ';'))))))))

/-! ## Multipart splitting -/

/-- The line scan of splitMultipart: a line whose trim equals the delimiter
flushes the current part (if inside one) and starts a new one; a line whose
trim equals the end delimiter flushes and stops; lines before the first
delimiter are discarded; with no end delimiter the trailing accumulation is
dropped (the source only pushes parts at delimiter lines). -/
def smGo (delim endDelim : List Char) :
    List (List Char) → List (List Char) → Bool → List (List Char)
  | [], _, _ => []
  | l :: rest, cur, inPart =>
    if trimChars l = delim then
      if inPart ∧ cur ≠ [] then joinNL cur :: smGo delim endDelim rest [] true
      else smGo delim endDelim rest [] true
    else if trimChars l = endDelim then
      if inPart ∧ cur ≠ [] then [joinNL cur] else []
    else smGo delim endDelim rest (if inPart then cur ++ [l] else cur) inPart

def splitMultipart (body boundary : String) : List String :=
  let delim := '-' :: '-' :: boundary.data
  let endDelim := delim ++ ['-', '-']
  (smGo delim endDelim (splitLinesCore body.data []) [] false).map String.mk

/-! ## Transfer decoding: quoted-printable, base64, UTF-8 -/

def hexDigit (c : Char) : Bool :=
  ('0' ≤ c ∧ c ≤ '9') ∨ ('A' ≤ c ∧ c ≤ 'F') ∨ ('a' ≤ c ∧ c ≤ 'f')

def hexVal (c : Char) : Nat :=
  if c ≤ '9' then c.toNat - 48 else if c ≤ 'F' then c.toNat - 55 else c.toNat - 87

/-- charCodeAt followed by the Uint8Array byte coercion.  (For characters
beyond the BMP the JS string holds surrogates; those inputs are outside the
model, as noted in the header comment.) -/
def charCode8 (c : Char) : Nat := c.toNat % 256

/-- The soft-line-break removal of decodeQuotedPrintable: a single
left-to-right pass deleting each equals sign directly followed by a line
ending (global regex replace). -/
def rsbGo : List Char → List Char
  | [] => []
  | '=' :: '\r' :: '\n' :: rest => rsbGo rest
  | '=' :: '\n' :: rest => rsbGo rest
  | c :: rest => c :: rsbGo rest

/-- The byte-production loop of decodeQuotedPrintable: an equals sign with
at least two following characters that are both hex digits becomes that
byte; any other character (including an equals sign not followed by two hex
digits, or one within two characters of the end) is emitted as its own
character code. -/
def qpBytes : List Char → List Nat
  | [] => []
  | '=' :: h1 :: h2 :: rest =>
    if hexDigit h1 ∧ hexDigit h2 then (hexVal h1 * 16 + hexVal h2) :: qpBytes rest
    else charCode8 '=' :: qpBytes (h1 :: h2 :: rest)
  | c :: rest => charCode8 c :: qpBytes rest

/-- Is a byte a UTF-8 continuation byte? -/
def utf8Cont (b : Nat) : Bool := 0x80 ≤ b ∧ b ≤ 0xBF

/-- TextDecoder with fatal false: UTF-8 decode with U+FFFD replacement.
This function is total — the non-fatal decoder never throws. -/
def utf8Go : Nat → List Nat → List Char
  | 0, _ => []
  | _, [] => []
  | fuel + 1, b :: rest =>
    if b < 0x80 then Char.ofNat b :: utf8Go fuel rest
    else if 0xC2 ≤ b ∧ b ≤ 0xDF then
      match rest with
      | b2 :: rest2 =>
        if utf8Cont b2 then
          Char.ofNat ((b - 0xC0) * 64 + (b2 - 0x80)) :: utf8Go fuel rest2
        else Char.ofNat 0xFFFD :: utf8Go fuel rest
      | [] => [Char.ofNat 0xFFFD]
    else if 0xE0 ≤ b ∧ b ≤ 0xEF then
      let lo2 := if b = 0xE0 then 0xA0 else 0x80
      let hi2 := if b = 0xED then 0x9F else 0xBF
      match rest with
      | b2 :: rest2 =>
        if lo2 ≤ b2 ∧ b2 ≤ hi2 then
          match rest2 with
          | b3 :: rest3 =>
            if utf8Cont b3 then
              Char.ofNat ((b - 0xE0) * 4096 + (b2 - 0x80) * 64 + (b3 - 0x80)) ::
                utf8Go fuel rest3
            else Char.ofNat 0xFFFD :: utf8Go fuel rest2
          | [] => [Char.ofNat 0xFFFD]
        else Char.ofNat 0xFFFD :: utf8Go fuel rest
      | [] => [Char.ofNat 0xFFFD]
    else if 0xF0 ≤ b ∧ b ≤ 0xF4 then
      let lo2 := if b = 0xF0 then 0x90 else 0x80
      let hi2 := if b = 0xF4 then 0x8F else 0xBF
      match rest with
      | b2 :: rest2 =>
        if lo2 ≤ b2 ∧ b2 ≤ hi2 then
          match rest2 with
          | b3 :: rest3 =>
            if utf8Cont b3 then
              match rest3 with
              | b4 :: rest4 =>
                if utf8Cont b4 then
                  Char.ofNat ((b - 0xF0) * 262144 + (b2 - 0x80) * 4096 +
                      (b3 - 0x80) * 64 + (b4 - 0x80)) :: utf8Go fuel rest4
                else Char.ofNat 0xFFFD :: utf8Go fuel rest3
              | [] => [Char.ofNat 0xFFFD]
            else Char.ofNat 0xFFFD :: utf8Go fuel rest2
          | [] => [Char.ofNat 0xFFFD]
        else Char.ofNat 0xFFFD :: utf8Go fuel rest
      | [] => [Char.ofNat 0xFFFD]
    else Char.ofNat 0xFFFD :: utf8Go fuel rest

def utf8DecodeReplace (bytes : List Nat) : String :=
  String.mk (utf8Go (bytes.length + 1) bytes)

/-- decodeQuotedPrintable: remove soft line breaks, convert hex escapes to
bytes, and UTF-8-decode non-fatally.  The catch branch of the source is
unreachable (the non-fatal decoder does not throw) and is not modelled. -/
def decodeQuotedPrintable (input : String) : String :=
  utf8DecodeReplace (qpBytes (rsbGo input.data))

/-- The base64 alphabet value of a character. -/
def b64Val (c : Char) : Option Nat :=
  if 'A' ≤ c ∧ c ≤ 'Z' then some (c.toNat - 65)
  else if 'a' ≤ c ∧ c ≤ 'z' then some (c.toNat - 71)
  else if '0' ≤ c ∧ c ≤ '9' then some (c.toNat + 4)
  else if c = '+' then some 62
  else if c = '/' then some 63
  else none

/-- Pack 6-bit groups into bytes (a final group of one value cannot occur
after the length check of atob). -/
def b64Pack : List Nat → List Nat
  | v1 :: v2 :: v3 :: v4 :: rest =>
    (v1 * 4 + v2 / 16) :: ((v2 % 16) * 16 + v3 / 4) :: ((v3 % 4) * 64 + v4) ::
      b64Pack rest
  | [v1, v2] => [v1 * 4 + v2 / 16]
  | [v1, v2, v3] => [v1 * 4 + v2 / 16, (v2 % 16) * 16 + v3 / 4]
  | _ => []

/-- atob (forgiving base64 decode): strip ASCII whitespace, strip up to two
trailing padding signs when the length is a multiple of four, then fail —
modelling the InvalidCharacterError the caller catches — when the length is
congruent to one modulo four or any character is outside the alphabet. -/
def atobOpt (s : String) : Option (List Nat) :=
  let d0 := s.data.filter fun c =>
    ¬(c = ' ' ∨ c = '\t' ∨ c = '\n' ∨ c = Char.ofNat 12 ∨ c = '\r')
  let d1 := if d0.length % 4 = 0 ∧ d0.getLast? = some '=' then d0.dropLast else d0
  let d2 := if d0.length % 4 = 0 ∧ d1.getLast? = some '=' then d1.dropLast else d1
  if d2.length % 4 = 1 then none
  else if d2.any fun c => (b64Val c).isNone then none
  else some (b64Pack (d2.filterMap b64Val))

/-- decodeBody: reverse the transfer encoding.  The base64 branch falls back
to the raw body when atob fails; the inner catch around the non-fatal UTF-8
decode is unreachable and not modelled. -/
def decodeBody (body : String) (transferEncoding : String) : String :=
  if body = "" then ""
  else
    let enc := jsTrim transferEncoding
    if enc = "base64" then
      let cleaned := String.mk (body.data.filter fun c => ¬ jsIsWhitespace c)
      match atobOpt cleaned with
      | some bytes => utf8DecodeReplace bytes
      | none => body
    else if enc = "quoted-printable" then decodeQuotedPrintable body
    else body

/-- decodeBodyWithCharset: transfer-decode, then normalise the declared
charset.  TextDecoder is modelled for the utf-8 family of labels only; for
every other label the construction is modelled as throwing, so the catch
branch returns the transfer-decoded text unchanged. -/
def decodeBodyWithCharset (body transferEncoding contentType : String) : String :=
  let decodedRaw := decodeBody body transferEncoding
  let cs := match jsMatchG1 charsetRE contentType with
    | some g => if g ≠ "" then jsToLowerS (jsTrim g) else ""
    | none => ""
  let charset := if cs = "" then "utf-8" else cs
  if decodedRaw = "" then ""
  else if charset = "utf-8" ∨ charset = "utf8" ∨ charset = "us-ascii" then decodedRaw
  else decodedRaw

/-! ## HTML sniffing, synthesis and stripping -/

/-- guessHtmlFromRaw: prefer the first occurrence of the html open marker
anywhere in the lower-cased text; only when it is absent, look for the
doctype marker; pair with the last close marker and slice the original. -/
def guessHtmlFromRaw (raw : String) : String :=
  if raw = "" then ""
  else
    let lower := jsToLowerS raw
    let hs := match sIndexOf lower "<html" with
      | some i => some i
      | none => sIndexOf lower "<!doctype html"
    match hs with
    | some i =>
      match sLastIndexOf lower "</html>" with
      | some j => jsSlice raw i (j + 7)
      | none => ""
    | none => ""

def escapeHtml (s : String) : String :=
  String.mk (s.data.flatMap fun c =>
    if c = '&' then "&amp;".data
    else if c = '<' then "&lt;".data
    else if c = '>' then "&gt;".data
    else if c = '"' then "&quot;".data
    else if c = Char.ofNat 39 then "&#39;".data
    else [c])

def textToHtml (text : String) : String :=
  "<div style=\"white-space:pre-wrap\">" ++ escapeHtml text ++ "</div>"

/-- Case-insensitive head match against an already-lower-cased pattern. -/
def ciLeadMatch : List Char → List Char → Bool
  | [], _ => true
  | _ :: _, [] => false
  | a :: as, b :: bs => jsToLower b = a && ciLeadMatch as bs

/-- First index of an already-lower-cased pattern, case-insensitively. -/
def ciIdxOf (pat : List Char) : List Char → Nat → Option Nat
  | [], i => if ciLeadMatch pat [] then some i else none
  | c :: rest, i =>
    if ciLeadMatch pat (c :: rest) then some i else ciIdxOf pat rest (i + 1)

/-- Global replace of a lazily-spanned open-to-close block (the script and
style removal passes of stripHtml) by a single space. -/
def removeBlocksGo (openTag closeTag : List Char) : Nat → List Char → List Char
  | 0, l => l
  | _, [] => []
  | fuel + 1, c :: rest =>
    if ciLeadMatch openTag (c :: rest) then
      match ciIdxOf closeTag ((c :: rest).drop openTag.length) 0 with
      | some k =>
        ' ' :: removeBlocksGo openTag closeTag fuel
          ((c :: rest).drop (openTag.length + k + closeTag.length))
      | none => c :: removeBlocksGo openTag closeTag fuel rest
    else c :: removeBlocksGo openTag closeTag fuel rest

/-- Global replace of angle-bracketed tags (one or more non-close characters
between the brackets) by a single space. -/
def stripTagsGo : Nat → List Char → List Char
  | 0, l => l
  | _, [] => []
  | fuel + 1, c :: rest =>
    if c = '<' then
      match idxOfAux ['>'] rest 0 with
      | some 0 => c :: stripTagsGo fuel rest
      | some (k + 1) => ' ' :: stripTagsGo fuel (rest.drop (k + 2))
      | none => c :: stripTagsGo fuel rest
    else c :: stripTagsGo fuel rest

/-- Global case-insensitive replace of a literal (the nbsp pass). -/
def replaceAllCI (pat rep : List Char) : Nat → List Char → List Char
  | 0, l => l
  | _, [] => []
  | fuel + 1, c :: rest =>
    if ciLeadMatch pat (c :: rest) then
      rep ++ replaceAllCI pat rep fuel ((c :: rest).drop pat.length)
    else c :: replaceAllCI pat rep fuel rest

def digitsToNat : List Char → Nat → Nat
  | [], acc => acc
  | c :: rest, acc => digitsToNat rest (acc * 10 + (c.toNat - 48))

/-- String.fromCharCode: the argument is coerced to an unsigned 16-bit code
unit.  (A value in the surrogate range is not a Lean scalar value and is
modelled as the null character; such references do not occur in the claims.) -/
def fromCharCode16 (n : Nat) : Char := Char.ofNat (n % 65536)

/-- Global replace of decimal numeric character references by their
character (the fromCharCode call cannot throw; the catch arm returning a
space is unreachable and not modelled). -/
def numRefGo : Nat → List Char → List Char
  | 0, l => l
  | _, [] => []
  | fuel + 1, c :: rest =>
    if c = '&' then
      match rest with
      | '#' :: rest2 =>
        let ds := rest2.takeWhile Char.isDigit
        if ds ≠ [] ∧ (rest2.drop ds.length).head? = some ';' then
          fromCharCode16 (digitsToNat ds 0) ::
            numRefGo fuel (rest2.drop (ds.length + 1))
        else c :: numRefGo fuel rest
      | _ => c :: numRefGo fuel rest
    else c :: numRefGo fuel rest

def isAsciiLetter (c : Char) : Bool :=
  ('a' ≤ c ∧ c ≤ 'z') ∨ ('A' ≤ c ∧ c ≤ 'Z')

/-- Global replace of named entity references (an ampersand, one or more
letters — case-insensitive — and a semicolon) by a space. -/
def namedRefGo : Nat → List Char → List Char
  | 0, l => l
  | _, [] => []
  | fuel + 1, c :: rest =>
    if c = '&' then
      let ls := rest.takeWhile isAsciiLetter
      if ls ≠ [] ∧ (rest.drop ls.length).head? = some ';' then
        ' ' :: namedRefGo fuel (rest.drop (ls.length + 1))
      else c :: namedRefGo fuel rest
    else c :: namedRefGo fuel rest

/-- Collapse whitespace runs to a single space. -/
def collapseWsGo : Nat → List Char → List Char
  | 0, l => l
  | _, [] => []
  | fuel + 1, c :: rest =>
    if jsIsWhitespace c then ' ' :: collapseWsGo fuel (rest.dropWhile jsIsWhitespace)
    else c :: collapseWsGo fuel rest

/-- stripHtml: remove script and style blocks, strip tags, decode nbsp and
numeric references, blank named references, collapse whitespace, trim. -/
def stripHtml (html : String) : String :=
  let s0 := html.data
  let s1 := removeBlocksGo "<script".data "</script>".data (s0.length + 1) s0
  let s2 := removeBlocksGo "<style".data "</style>".data (s1.length + 1) s1
  let s3 := stripTagsGo (s2.length + 1) s2
  let s4 := replaceAllCI "&nbsp;".data [' '] (s3.length + 1) s3
  let s5 := numRefGo (s4.length + 1) s4
  let s6 := namedRefGo (s5.length + 1) s5
  let s7 := collapseWsGo (s6.length + 1) s6
  String.mk (trimChars s7)

/-! ## The entity resolver (email/parser: parseEntity, parseEmailBody)

The source recursion has no explicit depth bound; the embedding threads a
fuel parameter, with Option.none as the fuel-exhaustion channel.  The
adequacy theorems below show that any fuel above the body length gives the
same result, with none never reached — each recursive call processes a
strictly smaller body. -/

structure ParsedBody where
  text : String
  html : String
deriving DecidableEq

/-- The merge step of the part loop: set html from the part only if the
accumulator html is still empty and the part produced a non-empty html;
the same rule for text. -/
def mergeOne (acc r : ParsedBody) : ParsedBody :=
  { html := if acc.html = "" ∧ r.html ≠ "" then r.html else acc.html,
    text := if acc.text = "" ∧ r.text ≠ "" then r.text else acc.text }

/-- The tag-delimited-document test of the multipart fallback: an open
bracket, word characters, a lazy any-run, a close bracket, an any-run, then
a closing tag.  (Laziness does not change test truth and is modelled
greedily.) -/
def tagDocRE : RE :=
  RE.seq (clsFor false '<') (RE.seq (RE.rep 1 none (RE.cls isWordChar))
    (RE.seq (RE.rep 0 none (RE.cls fun _ => true)) (RE.seq (clsFor false '>')
      (RE.seq (RE.rep 0 none (RE.cls fun _ => true)) (RE.seq (clsFor false '<')
        (RE.seq (clsFor false '/')
          (RE.seq (RE.rep 1 none (RE.cls isWordChar)) (clsFor false '>'))))))))

/-- parseEmailBody relative to an entity resolver: empty input yields the
empty pair, otherwise split headers from body and resolve. -/
def parseEmailBodyWith (pe : HeaderMap → String → Option ParsedBody)
    (raw : String) : Option ParsedBody :=
  if raw = "" then some ⟨"", ""⟩
  else
    let hb := splitHeadersAndBody raw
    pe hb.1 hb.2

/-- The per-part dispatch of the multipart loop: nested multiparts and
embedded messages recurse; an rfc822-headers part is skipped (the inner
none); every other part is resolved as an entity. -/
def resolveOnePart (pe : HeaderMap → String → Option ParsedBody)
    (part : String) : Option (Option ParsedBody) :=
  let hb := splitHeadersAndBody part
  let pct := jsToLowerS (hGet hb.1 "content-type")
  if sStarts pct "multipart/" then (pe hb.1 hb.2).map some
  else if sStarts pct "message/rfc822" then (parseEmailBodyWith pe hb.2).map some
  else if sContains pct "rfc822-headers" then some none
  else (pe hb.1 hb.2).map some

/-- The part loop: merge each resolved part first-found-wins, skip
rfc822-headers parts without a break check, and stop as soon as both text
and html are non-empty. -/
def mergeLoop (resolve : String → Option (Option ParsedBody)) :
    List String → ParsedBody → Option ParsedBody
  | [], acc => some acc
  | p :: rest, acc =>
    match resolve p with
    | none => none
    | some none => mergeLoop resolve rest acc
    | some (some r) =>
      let acc' := mergeOne acc r
      if acc'.text ≠ "" ∧ acc'.html ≠ "" then some acc'
      else mergeLoop resolve rest acc'

/-- Steps 4 to 6 of the resolver: sniff html out of the raw body, fall back
to the raw body when it resembles a tag-delimited document, and synthesize
html from text; each step only fires while html is still empty. -/
def entityFallbacks (body : String) (acc : ParsedBody) : ParsedBody :=
  let html1 := if acc.html = "" then
      (let g := guessHtmlFromRaw body
       if g = "" then (if reTest tagDocRE body then body else "") else g)
    else acc.html
  let html2 := if html1 = "" ∧ acc.text ≠ "" then textToHtml acc.text else html1
  ⟨acc.text, html2⟩

/-- parseEntity with fuel.  A non-multipart entity is decoded and classified
(with the HTML sniff special case for a missing content type); a multipart
entity with a boundary iterates its parts through the merge loop and then
applies the fallbacks. -/
def parseEntityF : Nat → HeaderMap → String → Option ParsedBody
  | 0, _, _ => none
  | fuel + 1, headers, body =>
    let ctRaw := hGet headers "content-type"
    let ct := jsToLowerS ctRaw
    let transferEnc := jsToLowerS (hGet headers "content-transfer-encoding")
    let boundary := getBoundary ctRaw
    if ¬ sStarts ct "multipart/" then
      let decoded := decodeBodyWithCharset body transferEnc ct
      let isHtml := sContains ct "text/html"
      let isText := sContains ct "text/plain" || !isHtml
      if ct = "" then
        let g := guessHtmlFromRaw (if decoded ≠ "" then decoded else body)
        if g ≠ "" then some ⟨"", g⟩
        else some ⟨if isText then decoded else "", if isHtml then decoded else ""⟩
      else some ⟨if isText then decoded else "", if isHtml then decoded else ""⟩
    else
      let acc0 : Option ParsedBody :=
        if boundary ≠ "" then
          mergeLoop (fun part => resolveOnePart (fun h b => parseEntityF fuel h b) part)
            (splitMultipart body boundary) ⟨"", ""⟩
        else some ⟨"", ""⟩
      acc0.map (entityFallbacks body)

/-- parseEmailBody at the Option level, with explicit fuel. -/
def parseEmailBodyF (fuel : Nat) (raw : String) : Option ParsedBody :=
  parseEmailBodyWith (fun h b => parseEntityF fuel h b) raw

/-- parseEmailBody: fuel one above the input length suffices (proved below),
so the default is never taken. -/
def parseEmailBody (raw : String) : ParsedBody :=
  (parseEmailBodyF (raw.length + 1) raw).getD ⟨"", ""⟩

/-- parseEntity, total form. -/
def parseEntity (headers : HeaderMap) (body : String) : ParsedBody :=
  (parseEntityF (body.length + 1) headers body).getD ⟨"", ""⟩

/-! ## The server-side verification-code extractor -/

/-- The read-only input of extractVerificationCode; absent fields of the JS
parameter object default to the empty string. -/
structure ExtractionContext where
  subject : String
  text : String
  html : String
deriving DecidableEq

def minLen : Nat := 4

def maxLen : Nat := 8

/-- normalizeDigits: strip every non-digit and keep the result only when its
length lies within the configured bounds. -/
def normalizeDigits (s : String) : String :=
  let digits := String.mk (s.data.filter Char.isDigit)
  if minLen ≤ digits.length ∧ digits.length ≤ maxLen then digits else ""

def digitCls : RE := RE.cls Char.isDigit

/-- The keyword alternation of the server extractor, in source order; the
i flag folds ASCII case. -/
def kwRE : RE :=
  altN [lit true "verification",
    RE.seq (lit true "one")
      (RE.seq (RE.rep 0 (some 1) (RE.cls fun c => c = '-' ∨ jsIsWhitespace c))
        (lit true "time")),
    RE.seq (lit true "two")
      (RE.seq (RE.rep 0 (some 1) (RE.cls fun c => c = '-' ∨ jsIsWhitespace c))
        (lit true "factor")),
    lit true "2fa", lit true "security", lit true "auth", lit true "login",
    lit true "confirm", lit true "code", lit true "otp",
    lit true "验证码", lit true "校验码", lit true "驗證碼", lit true "確認碼",
    lit true "認證碼", lit true "認証コード", lit true "인증코드", lit true "코드"]

/-- The separator class allowed between code digits: NBSP, whitespace,
hyphen, en and em dashes, underscore, dot, middle dots, bullet operators,
hyphenation point, apostrophe. -/
def sepClass (c : Char) : Bool :=
  c = Char.ofNat 0xA0 ∨ jsIsWhitespace c ∨ c = '-' ∨ c = Char.ofNat 0x2013 ∨
  c = Char.ofNat 0x2014 ∨ c = '_' ∨ c = '.' ∨ c = Char.ofNat 0xB7 ∨
  c = Char.ofNat 0x2022 ∨ c = Char.ofNat 0x2219 ∨ c = Char.ofNat 0x2027 ∨
  c = Char.ofNat 39

/-- The captured code chunk: a digit followed by three to seven optionally
separated digits. -/
def codeChunk : RE :=
  RE.grp (RE.seq digitCls
    (RE.rep 3 (some 7) (RE.seq (RE.rep 0 (some 1) (RE.cls sepClass)) digitCls)))

/-- Up to n characters other than newline, carriage return and digits. -/
def gapRE (n : Nat) : RE :=
  RE.rep 0 (some n) (RE.cls fun c => ¬(c = '\n' ∨ c = '\r' ∨ Char.isDigit c))

/-- Keyword-then-digits pattern with the given gap width: the digit chunk is
not bounded by other digits on either side. -/
def kwThenCode (n : Nat) : RE :=
  RE.seq kwRE (RE.seq (gapRE n)
    (RE.seq (RE.nlb Char.isDigit) (RE.seq codeChunk (RE.nla digitCls))))

/-- Digits-then-keyword mirror pattern with the given gap width. -/
def codeThenKw (n : Nat) : RE :=
  RE.seq (RE.seq (RE.nlb Char.isDigit)
    (RE.seq codeChunk (RE.seq (RE.nla digitCls) (gapRE n)))) kwRE

def subjectRe1 : RE := kwThenCode 20

def subjectRe2 : RE := codeThenKw 20

def bodyRe1 : RE := kwThenCode 30

def bodyRe2 : RE := codeThenKw 30

def looseRe1 : RE := kwThenCode 80

def looseRe2 : RE := codeThenKw 80

/-- parseInt(s, 10): skip whitespace, optional sign, decimal digit prefix;
none models NaN. -/
def jsParseIntDec (s : String) : Option Int :=
  let t := s.data.dropWhile jsIsWhitespace
  match t with
  | '-' :: r =>
    let ds := r.takeWhile Char.isDigit
    if ds = [] then none else some (-(digitsToNat ds 0 : Int))
  | '+' :: r =>
    let ds := r.takeWhile Char.isDigit
    if ds = [] then none else some (digitsToNat ds 0 : Int)
  | _ =>
    let ds := t.takeWhile Char.isDigit
    if ds = [] then none else some (digitsToNat ds 0 : Int)

/-- The word-then-five-digits US-address pattern of the filter; the i flag
makes the letter class any ASCII letter. -/
def addr5RE : RE :=
  RE.seq RE.wb (RE.seq (RE.rep 2 none (RE.cls isAsciiLetter))
    (RE.seq (RE.rep 1 none (RE.cls jsIsWhitespace))
      (RE.seq (RE.rep 5 (some 5) digitCls) RE.wb)))

/-- The digits-then-word street-address pattern of the filter, built from
the candidate digits.  The source constructs it with the i flag, so both
letter classes match either case. -/
def addressPatternRE (digits : String) : RE :=
  RE.seq RE.wb (RE.seq (lit true digits)
    (RE.seq (RE.rep 1 none (RE.cls jsIsWhitespace))
      (RE.seq (RE.cls isAsciiLetter)
        (RE.seq (RE.rep 1 none (RE.cls isAsciiLetter))
          (RE.alt (clsFor false ',') RE.wb)))))

/-- Does the parseInt result land in the plausible-year range?  (NaN
comparisons are false.) -/
def inYearRange : Option Int → Bool
  | some y => 2000 ≤ y ∧ y ≤ 2099
  | none => false

/-- isLikelyNonVerificationCode: the false-positive filter of the loose
tier. -/
def isLikelyNonVerificationCode (digits context : String) : Bool :=
  if digits = "" then true
  else if digits.length = 4 ∧ inYearRange (jsParseIntDec digits) then true
  else if digits.length = 5 ∧
      (sContains (jsToLowerS context) "address" ∨
       sContains (jsToLowerS context) "street" ∨
       sContains (jsToLowerS context) "zip" ∨
       sContains (jsToLowerS context) "postal" ∨
       reTest addr5RE context) then true
  else if reTest (addressPatternRE digits) context then true
  else false

/-- One cascade attempt: when the regex matches and its group is non-empty,
normalise the digits; a non-empty normalisation is the result, anything else
moves to the next attempt. -/
def tryRe (re : RE) (s : String) : Option String :=
  match jsMatchG1 re s with
  | some g =>
    if g ≠ "" then (let n := normalizeDigits g; if n ≠ "" then some n else none)
    else none
  | none => none

/-- A loose-tier attempt: as tryRe, but the candidate is additionally
rejected when the false-positive filter flags it against the body corpus
(the same string being searched). -/
def tryReLoose (re : RE) (s : String) : Option String :=
  match jsMatchG1 re s with
  | some g =>
    if g ≠ "" then
      (let n := normalizeDigits g
       if n ≠ "" ∧ ¬ isLikelyNonVerificationCode n s then some n else none)
    else none
  | none => none

/-- First successful attempt of the cascade, else the empty string. -/
def firstSomeStr : List (Option String) → String
  | [] => ""
  | o :: rest =>
    match o with
    | some n => n
    | none => firstSomeStr rest

/-- The body search corpus of extractVerificationCode: the plain text, a
space, then the stripped HTML, trimmed (sources.body of the source). -/
def evcBody (text html : String) : String := jsTrim (text ++ " " ++ stripHtml html)

/-- extractVerificationCode: the subject is searched first with the tight
window, then the body corpus with the tight and loose windows; every
candidate passes normalizeDigits, and loose candidates also pass the
false-positive filter. -/
def extractVerificationCode (ctx : ExtractionContext) : String :=
  let subjectText := ctx.subject
  let body := evcBody ctx.text ctx.html
  firstSomeStr [tryRe subjectRe1 subjectText, tryRe subjectRe2 subjectText,
    tryRe bodyRe1 body, tryRe bodyRe2 body,
    tryReLoose looseRe1 body, tryReLoose looseRe2 body]

/-! ## The client-side list-preview extractor (ui-helpers.js: extractCode) -/

/-- The client keyword alternation, in source order; the i flag folds ASCII
case. -/
def clientKwRE : RE :=
  altN [lit true "验证码", lit true "校验码", lit true "激活码",
    RE.seq (lit true "one")
      (RE.seq (RE.rep 0 (some 1) (RE.cls fun c => c = '-' ∨ jsIsWhitespace c))
        (RE.seq (lit true "time")
          (RE.seq (RE.rep 1 none (RE.cls jsIsWhitespace)) (lit true "code")))),
    RE.seq (lit true "verification")
      (RE.seq (RE.rep 1 none (RE.cls jsIsWhitespace)) (lit true "code")),
    RE.seq (lit true "security")
      (RE.seq (RE.rep 1 none (RE.cls jsIsWhitespace)) (lit true "code")),
    RE.seq (lit true "two")
      (RE.seq (RE.rep 0 (some 1) (RE.cls fun c => c = '-' ∨ jsIsWhitespace c))
        (lit true "factor")),
    lit true "2fa", lit true "otp",
    RE.seq (lit true "login")
      (RE.seq (RE.rep 1 none (RE.cls jsIsWhitespace)) (lit true "code")),
    lit true "code"]

def isAlnum (c : Char) : Bool :=
  ('0' ≤ c ∧ c ≤ '9') ∨ ('A' ≤ c ∧ c ≤ 'Z') ∨ ('a' ≤ c ∧ c ≤ 'z')

def nonAlnumCls : RE := RE.cls fun c => ¬ isAlnum c

/-- The optional connector of the client patterns: is with an optional
colon, a bare colon (ASCII or fullwidth), or the Chinese copulas. -/
def clientConnector : RE :=
  RE.rep 0 (some 1) (altN [
    RE.seq (lit true "is")
      (RE.rep 0 (some 1) (RE.seq wsStar
        (RE.cls fun c => c = ':' ∨ c = Char.ofNat 0xFF1A))),
    RE.cls fun c => c = ':' ∨ c = Char.ofNat 0xFF1A,
    clsFor true '为', clsFor true '是'])

def notFollowAlnum : RE := RE.nla (RE.cls isAlnum)

/-- Client tier 1: keyword, gaps and connector, four to eight contiguous
digits not followed by an alphanumeric. -/
def clientRe1 : RE :=
  RE.seq clientKwRE (RE.seq (RE.rep 0 (some 20) nonAlnumCls)
    (RE.seq clientConnector (RE.seq (RE.rep 0 (some 10) nonAlnumCls)
      (RE.seq (RE.grp (RE.rep 4 (some 8) digitCls)) notFollowAlnum))))

def spaceTabDash : RE := RE.cls fun c => c = ' ' ∨ c = '\t' ∨ c = '-'

/-- Client tier 2: keyword then space, tab or hyphen separated digits. -/
def clientRe2 : RE :=
  RE.seq clientKwRE (RE.seq (RE.rep 0 (some 20) nonAlnumCls)
    (RE.seq clientConnector (RE.seq (RE.rep 0 (some 10) nonAlnumCls)
      (RE.grp (RE.seq (RE.rep 3 (some 7) (RE.seq digitCls spaceTabDash))
        digitCls)))))

/-- Client tier 3: keyword then a four-to-eight alphanumeric run containing
at least one digit. -/
def clientRe3 : RE :=
  RE.seq clientKwRE (RE.seq (RE.rep 0 (some 40) nonAlnumCls)
    (RE.seq (RE.grp (RE.seq
        (RE.la (RE.seq (RE.rep 0 none (RE.cls isAlnum)) digitCls))
        (RE.rep 4 (some 8) (RE.cls isAlnum)))) notFollowAlnum))

/-- Client tier 4: a bare global six-digit run not bounded by digits. -/
def clientRe4 : RE :=
  RE.seq (RE.nlb Char.isDigit)
    (RE.seq (RE.grp (RE.rep 6 (some 6) digitCls)) (RE.nla digitCls))

/-- Client tier 5: a global space, tab or hyphen separated digit run. -/
def clientRe5 : RE :=
  RE.grp (RE.seq digitCls (RE.rep 5 (some 7) (RE.seq spaceTabDash digitCls)))

/-- replace non-digits away (the client normalisation). -/
def stripNonDigits (s : String) : String := String.mk (s.data.filter Char.isDigit)

/-- extractCode: the client list-preview extractor; tiers 1 to 3 require a
keyword, tiers 4 and 5 are bare global digit scans. -/
def extractCode (text : String) : String :=
  if text = "" then ""
  else
    match jsMatchG1 clientRe1 text with
    | some g => g
    | none =>
      let t2 := match jsMatchG1 clientRe2 text with
        | some g =>
          let d := stripNonDigits g
          if 4 ≤ d.length ∧ d.length ≤ 8 then some d else none
        | none => none
      match t2 with
      | some d => d
      | none =>
        match jsMatchG1 clientRe3 text with
        | some g => g
        | none =>
          match jsMatchG1 clientRe4 text with
          | some g => g
          | none =>
            match jsMatchG1 clientRe5 text with
            | some g =>
              let d := stripNonDigits g
              if 4 ≤ d.length ∧ d.length ≤ 8 then d else ""
            | none => ""

/-! ## Auxiliary definitions used only by theorem statements -/

/-- The per-part outcomes the merge loop sees, in order: a skipped
rfc822-headers part contributes the empty pair; none when the resolver runs
out of fuel on some part. -/
def partOuts (resolve : String → Option (Option ParsedBody)) :
    List String → Option (List ParsedBody)
  | [] => some []
  | p :: rest =>
    match resolve p with
    | none => none
    | some o => (partOuts resolve rest).map fun l => o.getD ⟨"", ""⟩ :: l

/-- The first non-empty string of a list, else the empty string. -/
def firstNonEmpty : List String → String
  | [] => ""
  | s :: rest => if s = "" then firstNonEmpty rest else s

/-- The year rule of the false-positive filter (rule 1 of the claim). -/
def yearRule (digits : String) : Bool :=
  digits.length = 4 ∧ inYearRange (jsParseIntDec digits)

/-- The five-digit postal-context rule of the filter (rule 2 of the
claim). -/
def zipContextRule (digits context : String) : Bool :=
  digits.length = 5 ∧
    (sContains (jsToLowerS context) "address" ∨
     sContains (jsToLowerS context) "street" ∨
     sContains (jsToLowerS context) "zip" ∨
     sContains (jsToLowerS context) "postal" ∨
     reTest addr5RE context)

/-- The street-address rule as the source implements it: because the regex
carries the i flag, the word after the digits may be of any letter case. -/
def addressRuleCI (digits context : String) : Bool :=
  reTest (addressPatternRE digits) context

/-! ## Definitions transcribed from the specification text

Each specXxx definition below follows the words of the spec sentence a
claim cites, for comparison against the definition embedded from the
source. -/

/-- Transcribed from the spec sentence of C3: the body search corpus is
stripHtml of the html, a space, then the text, trimmed. -/
def specBodyCorpus (text html : String) : String :=
  jsTrim (stripHtml html ++ " " ++ text)

/-- Transcribed from the spec sentence of C7: take the first occurrence of
either opening marker — whichever occurs first — and the last close marker;
when the opening marker is before the closing one, slice, else empty. -/
def specGuessHtmlFromRaw (raw : String) : String :=
  let lower := jsToLowerS raw
  let hs := match sIndexOf lower "<html", sIndexOf lower "<!doctype html" with
    | some a, some b => some (min a b)
    | some a, none => some a
    | none, some b => some b
    | none, none => none
  match hs with
  | some i =>
    match sLastIndexOf lower "</html>" with
    | some j => if i < j then jsSlice raw i (j + 7) else ""
    | none => ""
  | none => ""

/-- Transcribed from the spec sentence of C5 rule 3: the digits immediately
followed by a capitalized word — an upper-case letter then lower-case
letters — and a comma or word boundary (no case folding). -/
def specAddressRule (digits context : String) : Bool :=
  reTest (RE.seq RE.wb (RE.seq (lit false digits)
    (RE.seq (RE.rep 1 none (RE.cls jsIsWhitespace))
      (RE.seq (RE.cls fun c => 'A' ≤ c ∧ c ≤ 'Z')
        (RE.seq (RE.rep 1 none (RE.cls fun c => 'a' ≤ c ∧ c ≤ 'z'))
          (RE.alt (clsFor false ',') RE.wb)))))) context

/-- Transcribed from the claim of C5: the filter rejects exactly when one of
the three listed rules applies, with rule 3 in its capitalized form. -/
def specRejects (digits context : String) : Bool :=
  yearRule digits ∨ zipContextRule digits context ∨ specAddressRule digits context

/-- The cost of a line list: total characters plus one per line (each line
of a split accounts for its separator, or for the final position). -/
def linesCost (ls : List (List Char)) : Nat :=
  (ls.map List.length).sum + ls.length

/-- A synthetically nested multipart entity, each level with its own
boundary, used to instantiate the termination theorem. -/
def nestedBody : Nat → String
  | 0 => "Content-Type: text/plain\n\nhi"
  | n + 1 =>
    let b := "b" ++ String.mk (List.replicate n 'x')
    "Content-Type: multipart/mixed; boundary=" ++ b ++ "\n\n--" ++ b ++ "\n" ++
      nestedBody n ++ "\n--" ++ b ++ "--"

/-- Syntactic check: every match of the regex must consume at least one
character at its start (used to rule out matches beyond the string end). -/
def consumesFirst : RE → Bool
  | .cls _ => true
  | .seq a _ => consumesFirst a
  | .alt a b => consumesFirst a && consumesFirst b
  | .rep mn _ r => decide (1 ≤ mn) && consumesFirst r
  | .grp r => consumesFirst r
  | .la _ => false
  | .nla _ => false
  | .nlb _ => false
  | .wb => false

/-- Syntactic check: the regex contains no capturing group, so matching
only threads the incoming capture through. -/
def grpFree : RE → Bool
  | .cls _ => true
  | .seq a b => grpFree a && grpFree b
  | .alt a b => grpFree a && grpFree b
  | .rep _ _ r => grpFree r
  | .grp _ => false
  | .la r => grpFree r
  | .nla r => grpFree r
  | .nlb _ => true
  | .wb => true

/-! # Theorems -/

/-! ## Termination infrastructure: every part of a multipart split is
strictly shorter than the body it came from -/

theorem linesCost_splitLinesCore_le (l acc : List Char) :
    linesCost (splitLinesCore l acc) ≤ l.length + acc.length + 1 := by
  induction l, acc using splitLinesCore.induct with
  | case1 acc => simp [splitLinesCore, linesCost]
  | case2 rest acc ih =>
    simp only [splitLinesCore, linesCost, List.map_cons, List.sum_cons,
      List.length_cons, List.length_reverse, List.length_nil] at *
    omega
  | case3 t acc hx ih =>
    simp [splitLinesCore, linesCost] at *
    omega
  | case4 c rest acc hx =>
    rename_i hne ih
    simp only [splitLinesCore, linesCost] at *
    rw [if_neg hne] at *
    simp only [List.length_cons] at *
    omega

theorem joinNL_cost (cur : List (List Char)) (h : cur ≠ []) :
    (joinNL cur).length + 1 = linesCost cur := by
  induction cur with
  | nil => exact absurd rfl h
  | cons x rest ih =>
    cases rest with
    | nil => simp [joinNL, linesCost]
    | cons y t =>
      have := ih (by simp)
      simp only [joinNL, linesCost, List.map_cons, List.sum_cons,
        List.length_cons, List.length_append] at *
      omega

theorem smGo_mem_cost (delim endDelim : List Char) :
    ∀ (lines cur : List (List Char)) (inPart : Bool) (p : List Char),
      p ∈ smGo delim endDelim lines cur inPart →
      p.length + 2 ≤ linesCost cur + linesCost lines := by
  intro lines
  induction lines with
  | nil => intro cur inPart p hp; simp [smGo] at hp
  | cons l rest ih =>
    intro cur inPart p hp
    simp only [smGo] at hp
    split at hp
    · split at hp
      · rcases List.mem_cons.mp hp with rfl | hp'
        · next hcur =>
          have hj := joinNL_cost cur hcur.2
          simp only [linesCost, List.map_cons, List.sum_cons,
            List.length_cons] at *
          omega
        · have := ih [] true p hp'
          simp only [linesCost, List.map_nil, List.sum_nil, List.length_nil,
            List.map_cons, List.sum_cons, List.length_cons] at *
          omega
      · have := ih [] true p hp
        simp only [linesCost, List.map_nil, List.sum_nil, List.length_nil,
          List.map_cons, List.sum_cons, List.length_cons] at *
        omega
    · split at hp
      · split at hp
        · next hcur =>
          rcases List.mem_singleton.mp hp with rfl
          have hj := joinNL_cost cur hcur.2
          simp only [linesCost, List.map_cons, List.sum_cons,
            List.length_cons] at *
          omega
        · simp at hp
      · have := ih (if inPart then cur ++ [l] else cur) inPart p hp
        have hc2 : linesCost (if inPart then cur ++ [l] else cur) ≤
            linesCost cur + (l.length + 1) := by
          split
          · simp only [linesCost, List.map_append, List.sum_append,
              List.length_append, List.map_cons, List.sum_cons,
              List.length_cons, List.map_nil, List.sum_nil, List.length_nil]
            omega
          · omega
        simp only [linesCost, List.map_cons, List.sum_cons,
          List.length_cons] at *
        omega

theorem splitMultipart_mem_length_lt (body boundary : String) (p : String)
    (hp : p ∈ splitMultipart body boundary) : p.length < body.length := by
  simp only [splitMultipart, List.mem_map] at hp
  obtain ⟨l, hl, rfl⟩ := hp
  have h1 := smGo_mem_cost ('-' :: '-' :: boundary.data)
    (('-' :: '-' :: boundary.data) ++ ['-', '-'])
    (splitLinesCore body.data []) [] false l hl
  have h2 := linesCost_splitLinesCore_le body.data []
  simp only [linesCost, List.map_nil, List.sum_nil, List.length_nil,
    List.length_nil] at h1 h2
  show l.length < body.data.length
  omega

theorem jsSliceFrom_length_le (s : String) (k : Nat) :
    (jsSliceFrom s k).length ≤ s.length := by
  show (s.data.drop k).length ≤ s.data.length
  simp

theorem splitHeadersAndBody_body_le (s : String) :
    ((splitHeadersAndBody s).2).length ≤ s.length := by
  unfold splitHeadersAndBody
  cases h1 : sIndexOf s "\r\n\r\n" with
  | some i => exact jsSliceFrom_length_le s (i + 4)
  | none =>
    cases h2 : sIndexOf s "\n\n" with
    | some j => exact jsSliceFrom_length_le s (j + 2)
    | none => exact le_refl _


theorem mergeLoop_congr (r₁ r₂ : String → Option (Option ParsedBody)) :
    ∀ (parts : List String),
      (∀ p ∈ parts, r₁ p = r₂ p ∧ (r₁ p).isSome) →
      ∀ acc, mergeLoop r₁ parts acc = mergeLoop r₂ parts acc ∧
        (mergeLoop r₁ parts acc).isSome := by
  intro parts
  induction parts with
  | nil => intro _ acc; exact ⟨rfl, rfl⟩
  | cons p rest ih =>
    intro hres acc
    have hp := hres p (List.mem_cons_self p rest)
    have hrest : ∀ q ∈ rest, r₁ q = r₂ q ∧ (r₁ q).isSome :=
      fun q hq => hres q (List.mem_cons_of_mem p hq)
    simp only [mergeLoop]
    cases hr : r₁ p with
    | none => rw [hr] at hp; simp at hp
    | some o =>
      have hr2 : r₂ p = some o := by rw [← hp.1, hr]
      rw [hr2]
      cases o with
      | none => exact ih hrest acc
      | some r =>
        dsimp only
        split
        · exact ⟨rfl, rfl⟩
        · exact ih hrest (mergeOne acc r)

theorem resolveOnePart_congr (pe₁ pe₂ : HeaderMap → String → Option ParsedBody)
    (part : String)
    (hrec : ∀ h b, b.length ≤ part.length →
      pe₁ h b = pe₂ h b ∧ (pe₁ h b).isSome) :
    resolveOnePart pe₁ part = resolveOnePart pe₂ part ∧
      (resolveOnePart pe₁ part).isSome := by
  simp only [resolveOnePart, parseEmailBodyWith]
  have hle := splitHeadersAndBody_body_le part
  by_cases h1 : sStarts (jsToLowerS (hGet (splitHeadersAndBody part).1 "content-type")) "multipart/"
  · rw [if_pos h1, if_pos h1]
    obtain ⟨he, hs⟩ := hrec _ _ hle
    exact ⟨by rw [he], by simpa using hs⟩
  · rw [if_neg h1, if_neg h1]
    by_cases h2 : sStarts (jsToLowerS (hGet (splitHeadersAndBody part).1 "content-type")) "message/rfc822"
    · rw [if_pos h2, if_pos h2]
      by_cases h3 : (splitHeadersAndBody part).2 = ""
      · rw [if_pos h3, if_pos h3]; exact ⟨rfl, rfl⟩
      · rw [if_neg h3, if_neg h3]
        obtain ⟨he, hs⟩ := hrec _ _ (le_trans (splitHeadersAndBody_body_le _) hle)
        exact ⟨by rw [he], by simpa using hs⟩
    · rw [if_neg h2, if_neg h2]
      by_cases h4 : sContains (jsToLowerS (hGet (splitHeadersAndBody part).1 "content-type")) "rfc822-headers"
      · rw [if_pos h4, if_pos h4]; exact ⟨rfl, rfl⟩
      · rw [if_neg h4, if_neg h4]
        obtain ⟨he, hs⟩ := hrec _ _ hle
        exact ⟨by rw [he], by simpa using hs⟩

theorem parseEntityF_stable :
    ∀ (n : Nat) (h : HeaderMap) (body : String) (f₁ f₂ : Nat),
      body.length ≤ n → body.length < f₁ → body.length < f₂ →
      parseEntityF f₁ h body = parseEntityF f₂ h body ∧
        (parseEntityF f₁ h body).isSome := by
  intro n
  induction n using Nat.strong_induction_on with
  | _ n IH =>
    intro h body f₁ f₂ hn h1 h2
    obtain ⟨a, rfl⟩ : ∃ a, f₁ = a + 1 := ⟨f₁ - 1, by omega⟩
    obtain ⟨b, rfl⟩ : ∃ b, f₂ = b + 1 := ⟨f₂ - 1, by omega⟩
    simp only [parseEntityF]
    by_cases hct : sStarts (jsToLowerS (hGet h "content-type")) "multipart/"
    · rw [if_neg (not_not_intro hct), if_neg (not_not_intro hct)]
      by_cases hbd : getBoundary (hGet h "content-type") ≠ ""
      · rw [if_pos hbd, if_pos hbd]
        have hml := mergeLoop_congr
          (fun part => resolveOnePart (fun hh bb => parseEntityF a hh bb) part)
          (fun part => resolveOnePart (fun hh bb => parseEntityF b hh bb) part)
          (splitMultipart body (getBoundary (hGet h "content-type")))
          (by
            intro p hp
            have hplt := splitMultipart_mem_length_lt body _ p hp
            exact resolveOnePart_congr _ _ p (by
              intro hh bb hble
              exact IH bb.length (by omega) hh bb a b (le_refl _)
                (by omega) (by omega)))
          ⟨"", ""⟩
        obtain ⟨he, hs⟩ := hml
        refine ⟨by rw [he], ?_⟩
        cases hx : mergeLoop
            (fun part => resolveOnePart (fun hh bb => parseEntityF a hh bb) part)
            (splitMultipart body (getBoundary (hGet h "content-type"))) ⟨"", ""⟩ with
        | none => rw [hx] at hs; simp at hs
        | some v => rfl
      · rw [if_neg hbd, if_neg hbd]
        exact ⟨rfl, rfl⟩
    · rw [if_pos hct, if_pos hct]
      refine ⟨rfl, ?_⟩
      repeat' split
      all_goals rfl

theorem parseEmailBodyF_isSome (raw : String) :
    (parseEmailBodyF (raw.length + 1) raw).isSome := by
  unfold parseEmailBodyF parseEmailBodyWith
  by_cases h : raw = ""
  · rw [if_pos h]; rfl
  · rw [if_neg h]
    have hle := splitHeadersAndBody_body_le raw
    exact (parseEntityF_stable raw.length (splitHeadersAndBody raw).1
      (splitHeadersAndBody raw).2 (raw.length + 1) (raw.length + 1) hle
      (by omega) (by omega)).2

/-- C1: the top-level entry points never throw.  parseEmailBody is total:
for every raw string, the fuelled resolver returns an actual result (the
Option.none failure channel is never reached) and parseEmailBody returns
that pair; the empty string yields the empty pair; and the extractor
returns a string for the empty context.  Every internal decoding failure
is an Option absorbed by a fallback inside the definitions. -/
theorem c1_entry_points_total :
    (∀ raw : String, ∃ p : ParsedBody,
      parseEmailBodyF (raw.length + 1) raw = some p ∧ parseEmailBody raw = p) ∧
    parseEmailBody "" = ⟨"", ""⟩ ∧
    extractVerificationCode ⟨"", "", ""⟩ = "" := by
  refine ⟨?_, by decide, by decide⟩
  intro raw
  have hsome := parseEmailBodyF_isSome raw
  cases hx : parseEmailBodyF (raw.length + 1) raw with
  | none => rw [hx] at hsome; simp at hsome
  | some p =>
    refine ⟨p, rfl, ?_⟩
    unfold parseEmailBody
    rw [hx]
    rfl

/-- C9: the entity resolver terminates on every input, including
adversarially nested multiparts: every recursive call processes a strictly
smaller body, so any fuel above the body length yields the same result as
the canonical bound and the fuel-exhaustion channel is never reached. -/
theorem c9_resolver_terminates (h : HeaderMap) (body : String) (fuel : Nat)
    (hf : body.length < fuel) :
    parseEntityF fuel h body = parseEntityF (body.length + 1) h body ∧
      ∃ r : ParsedBody, parseEntityF fuel h body = some r := by
  have h1 := parseEntityF_stable body.length h body fuel (body.length + 1)
    (le_refl _) hf (by omega)
  refine ⟨h1.1, ?_⟩
  cases hx : parseEntityF fuel h body with
  | none => rw [hx] at h1; simp at h1
  | some r => exact ⟨r, rfl⟩

/-- Witness for C9 at a twenty-level nested multipart message (the theorem itself covers every depth). -/
theorem c9_resolver_terminates_witness :
    ((splitHeadersAndBody (nestedBody 20)).2).length < (nestedBody 20).length + 1 ∧
      (parseEntityF ((nestedBody 20).length + 1)
          (splitHeadersAndBody (nestedBody 20)).1
          (splitHeadersAndBody (nestedBody 20)).2 =
        parseEntityF (((splitHeadersAndBody (nestedBody 20)).2).length + 1)
          (splitHeadersAndBody (nestedBody 20)).1
          (splitHeadersAndBody (nestedBody 20)).2 ∧
      ∃ r : ParsedBody, parseEntityF ((nestedBody 20).length + 1)
          (splitHeadersAndBody (nestedBody 20)).1
          (splitHeadersAndBody (nestedBody 20)).2 = some r) := by
  have hlen : ((splitHeadersAndBody (nestedBody 20)).2).length <
      (nestedBody 20).length + 1 :=
    Nat.lt_succ_of_le (splitHeadersAndBody_body_le _)
  exact ⟨hlen, c9_resolver_terminates _ _ _ hlen⟩


theorem mergeOne_text_of_ne (acc r : ParsedBody) (h : acc.text ≠ "") :
    (mergeOne acc r).text = acc.text := by
  simp [mergeOne, h]

theorem mergeOne_html_of_ne (acc r : ParsedBody) (h : acc.html ≠ "") :
    (mergeOne acc r).html = acc.html := by
  simp [mergeOne, h]

theorem firstNonEmpty_cons_empty (l : List String) :
    firstNonEmpty ("" :: l) = firstNonEmpty l := by
  simp [firstNonEmpty]

theorem firstNonEmpty_cons_ne (s : String) (l : List String) (h : s ≠ "") :
    firstNonEmpty (s :: l) = s := by
  simp [firstNonEmpty, h]

/-- The merge loop never overwrites an already-populated accumulator
field. -/
theorem mergeLoop_no_overwrite (resolve : String → Option (Option ParsedBody)) :
    ∀ (parts : List String) (acc r : ParsedBody),
      mergeLoop resolve parts acc = some r →
      (acc.text ≠ "" → r.text = acc.text) ∧ (acc.html ≠ "" → r.html = acc.html) := by
  intro parts
  induction parts with
  | nil =>
    intro acc r hm
    simp only [mergeLoop, Option.some.injEq] at hm
    subst hm
    exact ⟨fun _ => rfl, fun _ => rfl⟩
  | cons p rest ih =>
    intro acc r hm
    simp only [mergeLoop] at hm
    cases hr : resolve p with
    | none => rw [hr] at hm; simp at hm
    | some o =>
      rw [hr] at hm
      cases o with
      | none => exact ih acc r hm
      | some rp =>
        dsimp only at hm
        split at hm
        · simp only [Option.some.injEq] at hm
          subst hm
          exact ⟨fun h => mergeOne_text_of_ne acc rp h,
            fun h => mergeOne_html_of_ne acc rp h⟩
        · have := ih (mergeOne acc rp) r hm
          refine ⟨fun h => ?_, fun h => ?_⟩
          · rw [this.1 (by rw [mergeOne_text_of_ne acc rp h]; exact h),
              mergeOne_text_of_ne acc rp h]
          · rw [this.2 (by rw [mergeOne_html_of_ne acc rp h]; exact h),
              mergeOne_html_of_ne acc rp h]

/-- With all parts resolvable, the loop result is the first non-empty value
per field. -/
theorem mergeLoop_first_found (resolve : String → Option (Option ParsedBody)) :
    ∀ (parts : List String) (acc r : ParsedBody) (outs : List ParsedBody),
      mergeLoop resolve parts acc = some r →
      partOuts resolve parts = some outs →
      (acc.text = "" → r.text = firstNonEmpty (outs.map ParsedBody.text)) ∧
      (acc.html = "" → r.html = firstNonEmpty (outs.map ParsedBody.html)) := by
  intro parts
  induction parts with
  | nil =>
    intro acc r outs hm ho
    simp only [mergeLoop, Option.some.injEq] at hm
    simp only [partOuts, Option.some.injEq] at ho
    subst hm
    subst ho
    exact ⟨fun h => by simpa [firstNonEmpty] using h,
      fun h => by simpa [firstNonEmpty] using h⟩
  | cons p rest ih =>
    intro acc r outs hm ho
    simp only [mergeLoop] at hm
    simp only [partOuts] at ho
    cases hr : resolve p with
    | none => rw [hr] at hm; simp at hm
    | some o =>
      rw [hr] at hm ho
      cases hrest : partOuts resolve rest with
      | none => rw [hrest] at ho; simp at ho
      | some outs' =>
        rw [hrest] at ho
        simp only [Option.map_some', Option.some.injEq] at ho
        subst ho
        cases o with
        | none =>
          dsimp only at hm
          have := ih acc r outs' hm hrest
          simp only [Option.getD_none, List.map_cons]
          exact ⟨fun h => by rw [firstNonEmpty_cons_empty]; exact this.1 h,
            fun h => by rw [firstNonEmpty_cons_empty]; exact this.2 h⟩
        | some rp =>
          dsimp only at hm
          simp only [Option.getD_some, List.map_cons]
          split at hm
          · next hboth =>
            simp only [Option.some.injEq] at hm
            subst hm
            refine ⟨fun h => ?_, fun h => ?_⟩
            · have ht : (mergeOne acc rp).text ≠ "" := hboth.1
              by_cases hrp : rp.text = ""
              · exfalso; apply ht; simp [mergeOne, h, hrp]
              · rw [firstNonEmpty_cons_ne _ _ hrp]; simp [mergeOne, h, hrp]
            · have hh : (mergeOne acc rp).html ≠ "" := hboth.2
              by_cases hrp : rp.html = ""
              · exfalso; apply hh; simp [mergeOne, h, hrp]
              · rw [firstNonEmpty_cons_ne _ _ hrp]; simp [mergeOne, h, hrp]
          · have hrec := ih (mergeOne acc rp) r outs' hm hrest
            have hnov := mergeLoop_no_overwrite resolve rest (mergeOne acc rp) r hm
            refine ⟨fun h => ?_, fun h => ?_⟩
            · by_cases hrp : rp.text = ""
              · rw [hrp, firstNonEmpty_cons_empty]
                exact hrec.1 (by simp [mergeOne, h, hrp])
              · have hacc : (mergeOne acc rp).text = rp.text := by
                  simp [mergeOne, h, hrp]
                rw [firstNonEmpty_cons_ne _ _ hrp, hnov.1 (by rw [hacc]; exact hrp), hacc]
            · by_cases hrp : rp.html = ""
              · rw [hrp, firstNonEmpty_cons_empty]
                exact hrec.2 (by simp [mergeOne, h, hrp])
              · have hacc : (mergeOne acc rp).html = rp.html := by
                  simp [mergeOne, h, hrp]
                rw [firstNonEmpty_cons_ne _ _ hrp, hnov.2 (by rw [hacc]; exact hrp), hacc]

/-- C2: multipart merge is first-found-wins, depth-first, left-to-right:
the loop result takes each field from the first part that yields it
non-empty; an already-populated accumulator field is never overwritten by a
later part; iteration stops as soon as both fields are non-empty (the tail
of the part list is then irrelevant); and when the loop fills both fields
of a multipart entity, that pair is the entity result unchanged. -/
theorem c2_multipart_merge :
    (∀ (resolve : String → Option (Option ParsedBody)) (parts : List String)
        (acc r : ParsedBody), mergeLoop resolve parts acc = some r →
        (acc.text ≠ "" → r.text = acc.text) ∧ (acc.html ≠ "" → r.html = acc.html)) ∧
    (∀ (resolve : String → Option (Option ParsedBody)) (parts : List String)
        (acc r : ParsedBody) (outs : List ParsedBody),
        mergeLoop resolve parts acc = some r → partOuts resolve parts = some outs →
        (acc.text = "" → r.text = firstNonEmpty (outs.map ParsedBody.text)) ∧
        (acc.html = "" → r.html = firstNonEmpty (outs.map ParsedBody.html))) ∧
    (∀ (resolve : String → Option (Option ParsedBody)) (p : String)
        (rest rest' : List String) (acc rp : ParsedBody),
        resolve p = some (some rp) →
        (mergeOne acc rp).text ≠ "" → (mergeOne acc rp).html ≠ "" →
        mergeLoop resolve (p :: rest) acc = some (mergeOne acc rp) ∧
        mergeLoop resolve (p :: rest) acc = mergeLoop resolve (p :: rest') acc) ∧
    (∀ (fuel : Nat) (headers : HeaderMap) (body : String) (m : ParsedBody),
        sStarts (jsToLowerS (hGet headers "content-type")) "multipart/" →
        getBoundary (hGet headers "content-type") ≠ "" →
        mergeLoop (fun part => resolveOnePart (fun h b => parseEntityF fuel h b) part)
          (splitMultipart body (getBoundary (hGet headers "content-type")))
          ⟨"", ""⟩ = some m →
        m.text ≠ "" → m.html ≠ "" →
        parseEntityF (fuel + 1) headers body = some m) := by
  refine ⟨mergeLoop_no_overwrite, mergeLoop_first_found, ?_, ?_⟩
  · intro resolve p rest rest' acc rp hr ht hh
    constructor
    · simp only [mergeLoop, hr]
      rw [if_pos ⟨ht, hh⟩]
    · simp only [mergeLoop, hr]
      rw [if_pos ⟨ht, hh⟩, if_pos ⟨ht, hh⟩]
  · intro fuel headers body m hct hbd hm ht hh
    simp only [parseEntityF]
    rw [if_neg (not_not_intro hct), if_pos hbd, hm]
    show some (entityFallbacks body m) = some m
    simp only [entityFallbacks]
    rw [if_neg hh, if_neg (fun hcon => hh hcon.1)]

/-- Witness for C2 on a concrete two-part multipart/alternative body. -/
theorem c2_multipart_merge_witness :
    parseEntityF 10 [("content-type", "multipart/alternative; boundary=b")]
      "--b\nContent-Type: text/plain\n\nhello\n--b\nContent-Type: text/html\n\n<i>hi</i>\n--b--"
      = some ⟨"hello", "<i>hi</i>"⟩ ∧
    (⟨"hello", "<i>hi</i>"⟩ : ParsedBody).text =
      firstNonEmpty (([⟨"hello", ""⟩, ⟨"", "<i>hi</i>"⟩] : List ParsedBody).map ParsedBody.text) ∧
    (⟨"t0", "<i>hi</i>"⟩ : ParsedBody).text = (⟨"t0", ""⟩ : ParsedBody).text ∧
    mergeLoop (fun part => resolveOnePart (fun h b => parseEntityF 9 h b) part)
      ["Content-Type: text/plain\n\nhello", "zzz"] ⟨"", "<i>pre</i>"⟩ =
    mergeLoop (fun part => resolveOnePart (fun h b => parseEntityF 9 h b) part)
      ["Content-Type: text/plain\n\nhello"] ⟨"", "<i>pre</i>"⟩ := by
  refine ⟨?_, ?_, ?_, ?_⟩
  · exact c2_multipart_merge.2.2.2 9
      [("content-type", "multipart/alternative; boundary=b")]
      "--b\nContent-Type: text/plain\n\nhello\n--b\nContent-Type: text/html\n\n<i>hi</i>\n--b--"
      ⟨"hello", "<i>hi</i>"⟩ (by decide) (by decide) (by decide) (by decide) (by decide)
  · exact (c2_multipart_merge.2.1
      (fun part => resolveOnePart (fun h b => parseEntityF 9 h b) part)
      ["Content-Type: text/plain\n\nhello", "Content-Type: text/html\n\n<i>hi</i>"]
      ⟨"", ""⟩ ⟨"hello", "<i>hi</i>"⟩ [⟨"hello", ""⟩, ⟨"", "<i>hi</i>"⟩]
      (by decide) (by decide)).1 rfl
  · exact (c2_multipart_merge.1
      (fun part => resolveOnePart (fun h b => parseEntityF 9 h b) part)
      ["Content-Type: text/plain\n\nhello", "Content-Type: text/html\n\n<i>hi</i>"]
      ⟨"t0", ""⟩ ⟨"t0", "<i>hi</i>"⟩ (by decide)).1 (by decide)
  · exact (c2_multipart_merge.2.2.1
      (fun part => resolveOnePart (fun h b => parseEntityF 9 h b) part)
      "Content-Type: text/plain\n\nhello" ["zzz"] [] ⟨"", "<i>pre</i>"⟩ ⟨"hello", ""⟩
      (by decide) (by decide) (by decide)).2

theorem isEmpty_map_eq (l : List MSt) (f : MSt → MSt) :
    (l.map f).isEmpty = l.isEmpty := by
  cases l <;> rfl

theorem repGo_empty_of (step : MSt → List MSt) (f mn : Nat) (mx : Option Nat)
    (st : MSt) (hstep : step st = []) (hmn : mn ≠ 0) :
    repGo step (f + 1) mn mx st = [] := by
  simp [repGo, hstep, hmn]

/-- A regex whose matches must consume a first character cannot match at a
position beyond the end of the string. -/
theorem matchEnds_out_of_range (arr : List Char) (re : RE)
    (hcf : consumesFirst re = true) :
    ∀ st : MSt, arr.get? st.1 = none → matchEnds arr re st = [] := by
  induction re with
  | cls p =>
    intro st hst
    rw [List.get?_eq_getElem?] at hst
    simp [matchEnds, hst]
  | seq a b iha ihb =>
    intro st hst
    simp only [consumesFirst] at hcf
    simp [matchEnds, iha hcf st hst]
  | alt a b iha ihb =>
    intro st hst
    simp only [consumesFirst, Bool.and_eq_true] at hcf
    simp [matchEnds, iha hcf.1 st hst, ihb hcf.2 st hst]
  | rep mn mx r ihr =>
    intro st hst
    simp only [consumesFirst, Bool.and_eq_true, decide_eq_true_eq] at hcf
    show repGo (fun st' => matchEnds arr r st') (arr.length + 1) mn mx st = []
    exact repGo_empty_of _ _ _ _ _ (ihr hcf.2 st hst) (by omega)
  | grp r ihr =>
    intro st hst
    simp only [consumesFirst] at hcf
    simp [matchEnds, ihr hcf st hst]
  | la r ihr => simp [consumesFirst] at hcf
  | nla r ihr => simp [consumesFirst] at hcf
  | nlb p => simp [consumesFirst] at hcf
  | wb => simp [consumesFirst] at hcf

theorem repGo_capConst (step : MSt → List MSt)
    (hstep : ∀ st : MSt, step st = (step (st.1, none)).map fun s => (s.1, st.2)) :
    ∀ (f mn : Nat) (mx : Option Nat) (st : MSt),
      repGo step f mn mx st =
        (repGo step f mn mx (st.1, none)).map fun s => (s.1, st.2) := by
  intro f
  induction f with
  | zero =>
    intro mn mx st
    by_cases h : mn = 0 <;> simp [repGo, h]
  | succ f ih =>
    intro mn mx st
    obtain ⟨p, c⟩ := st
    simp only [repGo, List.map_append]
    congr 1
    · by_cases hcm : (match mx with | none => true | some m => decide (0 < m)) = true
      · rw [if_pos hcm, if_pos hcm]
        rw [hstep (p, c)]
        rw [List.flatMap_map, List.map_flatMap]
        congr 1
        funext s0
        dsimp only
        by_cases hlt : p < s0.1
        · rw [if_pos hlt, if_pos hlt,
            ih (mn - 1) (decrMax mx) (s0.1, c), ih (mn - 1) (decrMax mx) s0,
            List.map_map]
          rfl
        · rw [if_neg hlt, if_neg hlt]
          rfl
      · rw [if_neg hcm, if_neg hcm]
        rfl
    · by_cases hmn : mn = 0
      · rw [if_pos hmn, if_pos hmn]
        rfl
      · rw [if_neg hmn, if_neg hmn]
        rfl

/-- A group-free regex threads the incoming capture through unchanged: its
matches from any state are the matches from the capture-free state with the
incoming capture restored. -/
theorem matchEnds_capConst (arr : List Char) (re : RE)
    (hgf : grpFree re = true) :
    ∀ st : MSt, matchEnds arr re st =
      (matchEnds arr re (st.1, none)).map fun s => (s.1, st.2) := by
  induction re with
  | cls p =>
    intro st
    simp only [matchEnds]
    cases arr.get? st.1 with
    | none => rfl
    | some ch => by_cases hp : p ch = true <;> simp [hp]
  | seq a b iha ihb =>
    intro st
    obtain ⟨p, c⟩ := st
    simp only [grpFree, Bool.and_eq_true] at hgf
    simp only [matchEnds]
    rw [iha hgf.1 (p, c), List.flatMap_map, List.map_flatMap]
    congr 1
    funext s0
    dsimp only
    rw [ihb hgf.2 (s0.1, c), ihb hgf.2 s0, List.map_map]
    rfl
  | alt a b iha ihb =>
    intro st
    simp only [grpFree, Bool.and_eq_true] at hgf
    simp only [matchEnds, List.map_append]
    rw [iha hgf.1 st, ihb hgf.2 st]
  | rep mn mx r ihr =>
    intro st
    simp only [grpFree] at hgf
    simp only [matchEnds]
    exact repGo_capConst _ (fun st' => ihr hgf st') (arr.length + 1) mn mx st
  | grp r ihr => simp [grpFree] at hgf
  | la r ihr =>
    intro st
    simp only [grpFree] at hgf
    simp only [matchEnds]
    rw [ihr hgf st, isEmpty_map_eq]
    by_cases he : (matchEnds arr r (st.1, none)).isEmpty = true <;> simp [he]
  | nla r ihr =>
    intro st
    simp only [grpFree] at hgf
    simp only [matchEnds]
    rw [ihr hgf st, isEmpty_map_eq]
    by_cases he : (matchEnds arr r (st.1, none)).isEmpty = true <;> simp [he]
  | nlb p =>
    intro st
    obtain ⟨pos, c⟩ := st
    simp only [matchEnds]
    cases pos with
    | zero => rfl
    | succ i =>
      show (match arr.get? i with
        | some ch => if p ch = true then [] else [(i + 1, c)]
        | none => [(i + 1, c)]) =
        List.map (fun s => (s.1, c)) (match arr.get? i with
        | some ch => if p ch = true then [] else [(i + 1, none)]
        | none => [(i + 1, none)])
      cases arr.get? i with
      | none => rfl
      | some ch => by_cases hp : p ch = true <;> simp [hp]
  | wb =>
    intro st
    obtain ⟨pos, c⟩ := st
    simp only [matchEnds]
    split <;> rfl

theorem jsMatchAux_none_covers (arr : List Char) (re : RE) :
    ∀ (fuel pos : Nat), jsMatchAux arr re fuel pos = none →
      ∀ q, pos ≤ q → q < pos + fuel → matchEnds arr re (q, none) = [] := by
  intro fuel
  induction fuel with
  | zero => intro pos _ q _ hq; omega
  | succ f ih =>
    intro pos hnone q hq1 hq2
    simp only [jsMatchAux] at hnone
    cases hme : matchEnds arr re (pos, none) with
    | cons a l => rw [hme] at hnone; simp at hnone
    | nil =>
      rw [hme] at hnone
      by_cases hq : q = pos
      · subst hq; exact hme
      · exact ih (pos + 1) hnone q (by omega) (by omega)

/-- When the whole-string search fails, a first-consuming group-free regex
matches nowhere, from any state. -/
theorem matchEnds_never (re : RE) (s : String)
    (hcf : consumesFirst re = true) (hgf : grpFree re = true)
    (hnone : jsMatch re s = none) :
    ∀ st : MSt, matchEnds s.data re st = [] := by
  intro st
  suffices h : matchEnds s.data re (st.1, none) = [] by
    rw [matchEnds_capConst s.data re hgf st, h]
    rfl
  by_cases hle : st.1 < s.data.length + 1
  · exact jsMatchAux_none_covers s.data re (s.data.length + 1) 0 hnone st.1
      (by omega) (by omega)
  · apply matchEnds_out_of_range s.data re hcf
    show s.data.get? st.1 = none
    exact List.get?_eq_none.mpr (by omega)

theorem seq_fail_left (arr : List Char) (a b : RE)
    (h : ∀ st, matchEnds arr a st = []) :
    ∀ st, matchEnds arr (RE.seq a b) st = [] := by
  intro st
  simp [matchEnds, h st]

theorem seq_fail_right (arr : List Char) (a b : RE)
    (h : ∀ st, matchEnds arr b st = []) :
    ∀ st, matchEnds arr (RE.seq a b) st = [] := by
  intro st
  simp only [matchEnds]
  exact List.flatMap_eq_nil_iff.mpr fun x _ => h x

theorem jsMatch_none_of_never (re : RE) (s : String)
    (h : ∀ st, matchEnds s.data re st = []) :
    jsMatch re s = none := by
  unfold jsMatch
  suffices hall : ∀ fuel pos, jsMatchAux s.data re fuel pos = none from hall _ 0
  intro fuel
  induction fuel with
  | zero => intro pos; rfl
  | succ f ih =>
    intro pos
    simp only [jsMatchAux, h (pos, none)]
    exact ih (pos + 1)

theorem tryRe_none (re : RE) (s : String) (h : jsMatch re s = none) :
    tryRe re s = none := by
  simp [tryRe, jsMatchG1, h]

theorem tryReLoose_none (re : RE) (s : String) (h : jsMatch re s = none) :
    tryReLoose re s = none := by
  simp [tryReLoose, jsMatchG1, h]

/-- C4: the server-side extractor has no un-keyworded fallback — with no
occurrence of the keyword alternation in the subject or the body corpus it
returns the empty string, whatever digits the text contains — while the
client-side list-preview extractor, on keyword-free text, falls back to the
bare global six-digit scan and returns that run. -/
theorem c4_extractor_fallback_contrast :
    (∀ ctx : ExtractionContext,
      jsMatch kwRE ctx.subject = none →
      jsMatch kwRE (evcBody ctx.text ctx.html) = none →
      extractVerificationCode ctx = "") ∧
    (∀ text g : String,
      jsMatch clientKwRE text = none →
      jsMatchG1 clientRe4 text = some g →
      extractCode text = g) := by
  constructor
  · intro ctx hsub hbody
    have hknS : ∀ st, matchEnds ctx.subject.data kwRE st = [] :=
      matchEnds_never kwRE ctx.subject (by decide) (by decide) hsub
    have hknB : ∀ st, matchEnds (evcBody ctx.text ctx.html).data kwRE st = [] :=
      matchEnds_never kwRE _ (by decide) (by decide) hbody
    have t1 : tryRe subjectRe1 ctx.subject = none :=
      tryRe_none _ _ (jsMatch_none_of_never _ _ (seq_fail_left _ _ _ hknS))
    have t2 : tryRe subjectRe2 ctx.subject = none :=
      tryRe_none _ _ (jsMatch_none_of_never _ _ (seq_fail_right _ _ _ hknS))
    have t3 : tryRe bodyRe1 (evcBody ctx.text ctx.html) = none :=
      tryRe_none _ _ (jsMatch_none_of_never _ _ (seq_fail_left _ _ _ hknB))
    have t4 : tryRe bodyRe2 (evcBody ctx.text ctx.html) = none :=
      tryRe_none _ _ (jsMatch_none_of_never _ _ (seq_fail_right _ _ _ hknB))
    have t5 : tryReLoose looseRe1 (evcBody ctx.text ctx.html) = none :=
      tryReLoose_none _ _ (jsMatch_none_of_never _ _ (seq_fail_left _ _ _ hknB))
    have t6 : tryReLoose looseRe2 (evcBody ctx.text ctx.html) = none :=
      tryReLoose_none _ _ (jsMatch_none_of_never _ _ (seq_fail_right _ _ _ hknB))
    simp only [extractVerificationCode]
    rw [t1, t2, t3, t4, t5, t6]
    rfl
  · intro text g hkw hm4
    have htext : ¬ text = "" := by
      intro he
      subst he
      rw [show jsMatchG1 clientRe4 "" = none from by decide] at hm4
      exact Option.noConfusion hm4
    have hkn : ∀ st, matchEnds text.data clientKwRE st = [] :=
      matchEnds_never clientKwRE text (by decide) (by decide) hkw
    have t1c : jsMatch clientRe1 text = none :=
      jsMatch_none_of_never clientRe1 text (seq_fail_left _ _ _ hkn)
    have t2c : jsMatch clientRe2 text = none :=
      jsMatch_none_of_never clientRe2 text (seq_fail_left _ _ _ hkn)
    have t3c : jsMatch clientRe3 text = none :=
      jsMatch_none_of_never clientRe3 text (seq_fail_left _ _ _ hkn)
    have g1 : jsMatchG1 clientRe1 text = none := by simp [jsMatchG1, t1c]
    have g2 : jsMatchG1 clientRe2 text = none := by simp [jsMatchG1, t2c]
    have g3 : jsMatchG1 clientRe3 text = none := by simp [jsMatchG1, t3c]
    simp only [extractCode]
    rw [if_neg htext, g1, g2, g3, hm4]

/-- Witness for C4 on a keyword-free text with an isolated six-digit run. -/
theorem c4_extractor_fallback_contrast_witness :
    extractVerificationCode ⟨"hello", "hi 123456 bye", ""⟩ = "" ∧
    extractCode "hi 123456 bye" = "123456" := by
  constructor
  · exact c4_extractor_fallback_contrast.1 ⟨"hello", "hi 123456 bye", ""⟩
      (by decide) (by decide)
  · exact c4_extractor_fallback_contrast.2 "hi 123456 bye" "123456"
      (by decide) (by decide)

theorem normalizeDigits_spec (s : String) :
    normalizeDigits s = "" ∨
      ((normalizeDigits s).data.all Char.isDigit = true ∧
        4 ≤ (normalizeDigits s).length ∧ (normalizeDigits s).length ≤ 8) := by
  simp only [normalizeDigits]
  split
  · next hlen =>
    right
    refine ⟨?_, ?_, ?_⟩
    · show (s.data.filter Char.isDigit).all Char.isDigit = true
      simp [List.all_eq_true]
    · exact hlen.1
    · exact hlen.2
  · left; rfl

theorem tryRe_good (re : RE) (s : String) (r : String)
    (h : tryRe re s = some r) :
    r.data.all Char.isDigit = true ∧ 4 ≤ r.length ∧ r.length ≤ 8 := by
  simp only [tryRe] at h
  cases hg : jsMatchG1 re s with
  | none => rw [hg] at h; exact Option.noConfusion h
  | some g =>
    rw [hg] at h
    dsimp only at h
    by_cases hge : g ≠ ""
    · rw [if_pos hge] at h
      by_cases hne : normalizeDigits g ≠ ""
      · rw [if_pos hne] at h
        simp only [Option.some.injEq] at h
        subst h
        rcases normalizeDigits_spec g with he | hp
        · exact absurd he hne
        · exact hp
      · rw [if_neg hne] at h; exact Option.noConfusion h
    · rw [if_neg hge] at h; exact Option.noConfusion h

theorem tryReLoose_good (re : RE) (s : String) (r : String)
    (h : tryReLoose re s = some r) :
    r.data.all Char.isDigit = true ∧ 4 ≤ r.length ∧ r.length ≤ 8 := by
  simp only [tryReLoose] at h
  cases hg : jsMatchG1 re s with
  | none => rw [hg] at h; exact Option.noConfusion h
  | some g =>
    rw [hg] at h
    dsimp only at h
    by_cases hge : g ≠ ""
    · rw [if_pos hge] at h
      by_cases hcond : normalizeDigits g ≠ "" ∧
          ¬ isLikelyNonVerificationCode (normalizeDigits g) s = true
      · rw [if_pos hcond] at h
        simp only [Option.some.injEq] at h
        subst h
        rcases normalizeDigits_spec g with he | hp
        · exact absurd he hcond.1
        · exact hp
      · rw [if_neg hcond] at h; exact Option.noConfusion h
    · rw [if_neg hge] at h; exact Option.noConfusion h

theorem firstSomeStr_spec (P : String → Prop) :
    ∀ lst : List (Option String),
      (∀ o ∈ lst, ∀ r, o = some r → P r) →
      firstSomeStr lst = "" ∨ P (firstSomeStr lst) := by
  intro lst
  induction lst with
  | nil => intro _; left; rfl
  | cons o rest ih =>
    intro hall
    cases o with
    | some n =>
      right
      exact hall (some n) (List.mem_cons_self _ _) n rfl
    | none =>
      simp only [firstSomeStr]
      exact ih fun q hq => hall q (List.mem_cons_of_mem _ hq)

/-- C8: every non-empty result of the extractor is a string of four to
eight ASCII digits — each returned candidate passes through digit
normalisation, which strips non-digits and enforces the length bounds. -/
theorem c8_result_shape (ctx : ExtractionContext) :
    extractVerificationCode ctx = "" ∨
      ((extractVerificationCode ctx).data.all Char.isDigit = true ∧
        4 ≤ (extractVerificationCode ctx).length ∧
        (extractVerificationCode ctx).length ≤ 8) := by
  simp only [extractVerificationCode]
  refine firstSomeStr_spec
    (fun r => r.data.all Char.isDigit = true ∧ 4 ≤ r.length ∧ r.length ≤ 8) _ ?_
  intro o ho r hor
  simp only [List.mem_cons, List.not_mem_nil, or_false] at ho
  rcases ho with rfl | rfl | rfl | rfl | rfl | rfl
  · exact tryRe_good _ _ r hor
  · exact tryRe_good _ _ r hor
  · exact tryRe_good _ _ r hor
  · exact tryRe_good _ _ r hor
  · exact tryReLoose_good _ _ r hor
  · exact tryReLoose_good _ _ r hor

/-- C3 counterexample: the body corpus the extractor uses puts the plain
text before the stripped HTML, not after it as the claim states, and the
order is observable — on the spec-order corpus the mirror pattern would
greedily capture eight digits instead of the four the code returns. -/
theorem c3_corpus_order_counterexample :
    evcBody "1234 code" "5678" = "1234 code 5678" ∧
    specBodyCorpus "1234 code" "5678" = "5678 1234 code" ∧
    evcBody "1234 code" "5678" ≠ specBodyCorpus "1234 code" "5678" ∧
    extractVerificationCode ⟨"", "1234 code", "5678"⟩ = "5678" ∧
    firstSomeStr [tryRe subjectRe1 "", tryRe subjectRe2 "",
      tryRe bodyRe1 (specBodyCorpus "1234 code" "5678"),
      tryRe bodyRe2 (specBodyCorpus "1234 code" "5678"),
      tryReLoose looseRe1 (specBodyCorpus "1234 code" "5678"),
      tryReLoose looseRe2 (specBodyCorpus "1234 code" "5678")] = "56781234" := by
  exact ⟨by decide, by decide, by decide, by decide, by decide⟩

/-- C3 amended: the extractor searches the subject separately and with
priority over the body, and the body search corpus equals the plain text,
a space, then the stripped HTML, trimmed (text before stripped HTML). -/
theorem c3_corpus_order_amended :
    (∀ text html : String,
      evcBody text html = jsTrim (text ++ " " ++ stripHtml html)) ∧
    (∀ ctx : ExtractionContext, extractVerificationCode ctx =
      firstSomeStr [tryRe subjectRe1 ctx.subject, tryRe subjectRe2 ctx.subject,
        tryRe bodyRe1 (evcBody ctx.text ctx.html),
        tryRe bodyRe2 (evcBody ctx.text ctx.html),
        tryReLoose looseRe1 (evcBody ctx.text ctx.html),
        tryReLoose looseRe2 (evcBody ctx.text ctx.html)]) ∧
    (∀ (ctx : ExtractionContext) (n : String),
      tryRe subjectRe1 ctx.subject = some n → extractVerificationCode ctx = n) := by
  refine ⟨fun _ _ => rfl, fun _ => rfl, ?_⟩
  intro ctx n h
  simp only [extractVerificationCode]
  rw [h]
  rfl

/-- Witness for C3: a subject-tier match takes priority over the body. -/
theorem c3_corpus_order_amended_witness :
    tryRe subjectRe1 "code 4321" = some "4321" ∧
    extractVerificationCode ⟨"code 4321", "code 9999", ""⟩ = "4321" := by
  refine ⟨by decide, ?_⟩
  exact c3_corpus_order_amended.2.2 ⟨"code 4321", "code 9999", ""⟩ "4321" (by decide)

/-- C5 counterexample: the street-address regex carries the i flag, so a
candidate followed by a non-capitalized word is rejected, although none of
the claim's rules (with rule 3 requiring a capitalized word) applies. -/
theorem c5_filter_counterexample :
    isLikelyNonVerificationCode "4711" "4711 apple," = true ∧
    specRejects "4711" "4711 apple," = false := by
  exact ⟨by decide, by decide⟩

/-- C5 amended: the filter rejects a non-empty candidate exactly when the
year rule, the five-digit postal-context rule, or the street-address rule
applies — the latter with case-insensitive letter classes, so any
alphabetic word after the digits triggers it, capitalized or not. -/
theorem c5_filter_amended (digits context : String) (hne : digits ≠ "") :
    isLikelyNonVerificationCode digits context = true ↔
      (yearRule digits = true ∨ zipContextRule digits context = true ∨
        addressRuleCI digits context = true) := by
  unfold isLikelyNonVerificationCode
  rw [if_neg hne]
  by_cases h1 : digits.length = 4 ∧ inYearRange (jsParseIntDec digits) = true
  · rw [if_pos h1]
    simp [yearRule, h1.1, h1.2]
  · rw [if_neg h1]
    by_cases h2 : digits.length = 5 ∧
        (sContains (jsToLowerS context) "address" = true ∨
          sContains (jsToLowerS context) "street" = true ∨
          sContains (jsToLowerS context) "zip" = true ∨
          sContains (jsToLowerS context) "postal" = true ∨
          reTest addr5RE context = true)
    · rw [if_pos h2]
      simp only [zipContextRule]
      simp [h2.1, h2.2]
    · rw [if_neg h2]
      by_cases h3 : reTest (addressPatternRE digits) context = true
      · rw [if_pos h3]
        simp [addressRuleCI, h3]
      · rw [if_neg h3]
        simp only [yearRule, zipContextRule, addressRuleCI]
        simp only [decide_eq_true_eq]
        constructor
        · intro hfalse
          exact absurd hfalse (by simp)
        · intro hor
          rcases hor with ha | hb | hc
          · exact absurd ha h1
          · exact absurd hb h2
          · exact absurd hc h3

/-- Witness for C5 at the counterexample context. -/
theorem c5_filter_amended_witness :
    ("4711" : String) ≠ "" ∧
      (isLikelyNonVerificationCode "4711" "4711 apple," = true ↔
        (yearRule "4711" = true ∨ zipContextRule "4711" "4711 apple," = true ∨
          addressRuleCI "4711" "4711 apple," = true)) :=
  ⟨by decide, c5_filter_amended "4711" "4711 apple," (by decide)⟩

theorem hGet_hSet (m : HeaderMap) (k v : String) : hGet (hSet m k v) k = v := by
  induction m with
  | nil => simp [hSet, hGet]
  | cons p rest ih =>
    obtain ⟨k0, v0⟩ := p
    by_cases hk : k0 = k
    · simp [hSet, hGet, hk]
    · simp [hSet, hGet, hk, ih]

/-- C6 counterexample: with the same header name on two non-continuation
lines, the parser retains the second occurrence, not the first. -/
theorem c6_duplicate_header_counterexample :
    hGet (parseHeaders "a: 1\na: 2") "a" = "2" ∧
    hGet (parseHeaders "a: 1\na: 2") "a" ≠ "1" := by
  exact ⟨by decide, by decide⟩

/-- C6 amended: duplicate header names are last-wins — a later
name-colon-value line for the same name replaces the stored value
regardless of what the block contained before it — while a line starting
with whitespace is appended, space-joined and trimmed, to the most recent
header's value. -/
theorem c6_duplicate_header_amended :
    (∀ (ls : List (List Char)) (m : HeaderMap) (lk : String) (l : List Char)
        (k v : String),
      lineStartsWs l = false → parseHeaderLine l = some (k, v) →
      hGet (parseHeadersGo (ls ++ [l]) m lk) k = v) ∧
    (∀ (m : HeaderMap) (lk : String) (l : List Char),
      lineStartsWs l = true → lk ≠ "" →
      parseHeadersGo [l] m lk =
        hSet m lk (hGet m lk ++ " " ++ String.mk (trimChars l))) ∧
    (∀ (m : HeaderMap) (k v : String), hGet (hSet m k v) k = v) := by
  refine ⟨?_, ?_, hGet_hSet⟩
  · intro ls
    induction ls with
    | nil =>
      intro m lk l k v hws hline
      simp only [List.nil_append, parseHeadersGo]
      rw [if_neg (by simp [hws])]
      rw [hline]
      exact hGet_hSet m k v
    | cons l0 rest ih =>
      intro m lk l k v hws hline
      simp only [List.cons_append, parseHeadersGo]
      by_cases hc : lineStartsWs l0 = true ∧ lk ≠ ""
      · rw [if_pos hc]
        exact ih _ _ l k v hws hline
      · rw [if_neg hc]
        cases hpl : parseHeaderLine l0 with
        | some kv => exact ih _ _ l k v hws hline
        | none => exact ih _ _ l k v hws hline
  · intro m lk l hws hlk
    simp only [parseHeadersGo]
    rw [if_pos ⟨hws, hlk⟩]

/-- Witness for C6: the duplicate line at the end of a block wins, and a
continuation line is appended to the most recent value. -/
theorem c6_duplicate_header_amended_witness :
    hGet (parseHeadersGo (["a: 1".data] ++ ["a: 2".data]) [] "") "a" = "2" ∧
    parseHeadersGo [" more".data] [("x", "v")] "x" =
      hSet [("x", "v")] "x" (hGet [("x", "v")] "x" ++ " " ++
        String.mk (trimChars " more".data)) ∧
    hGet (hSet [("x", "v")] "x" "w") "x" = "w" := by
  refine ⟨?_, ?_, ?_⟩
  · exact c6_duplicate_header_amended.1 ["a: 1".data] [] "" "a: 2".data "a" "2"
      (by decide) (by decide)
  · exact c6_duplicate_header_amended.2.1 [("x", "v")] "x" " more".data
      (by decide) (by decide)
  · exact c6_duplicate_header_amended.2.2 [("x", "v")] "x" "w"

/-- C7 counterexample: the sniffer prefers the first occurrence of the html
open marker anywhere in the text; the doctype marker is consulted only when
the open marker is absent, so on a document starting with a doctype the
returned slice drops the doctype, while the claimed
whichever-occurs-first rule would keep it. -/
theorem c7_guess_html_counterexample :
    guessHtmlFromRaw "<!doctype html><html>x</html>" = "<html>x</html>" ∧
    specGuessHtmlFromRaw "<!doctype html><html>x</html>" =
      "<!doctype html><html>x</html>" ∧
    guessHtmlFromRaw "<!doctype html><html>x</html>" ≠
      specGuessHtmlFromRaw "<!doctype html><html>x</html>" := by
  exact ⟨by decide, by decide, by decide⟩

/-- C7 amended: the sniffer case-insensitively takes the first occurrence of
the html open marker; only when that is absent does it fall back to the
first doctype marker; it pairs the chosen start with the last close marker
and returns the slice of the original text through the end of the close
marker, and the empty string when the needed markers are missing (an
inverted order yields the empty slice). -/
theorem c7_guess_html_amended (raw : String) :
    (∀ i j, sIndexOf (jsToLowerS raw) "<html" = some i →
      sLastIndexOf (jsToLowerS raw) "</html>" = some j →
      guessHtmlFromRaw raw = jsSlice raw i (j + 7)) ∧
    (∀ i j, sIndexOf (jsToLowerS raw) "<html" = none →
      sIndexOf (jsToLowerS raw) "<!doctype html" = some i →
      sLastIndexOf (jsToLowerS raw) "</html>" = some j →
      guessHtmlFromRaw raw = jsSlice raw i (j + 7)) ∧
    (sIndexOf (jsToLowerS raw) "<html" = none →
      sIndexOf (jsToLowerS raw) "<!doctype html" = none →
      guessHtmlFromRaw raw = "") ∧
    (sLastIndexOf (jsToLowerS raw) "</html>" = none →
      guessHtmlFromRaw raw = "") := by
  by_cases hr : raw = ""
  · subst hr
    refine ⟨?_, ?_, ?_, ?_⟩
    · intro i j h1 _
      have he : sIndexOf (jsToLowerS "") "<html" = none := by decide
      rw [he] at h1
      exact Option.noConfusion h1
    · intro i j _ h2 _
      have he : sIndexOf (jsToLowerS "") "<!doctype html" = none := by decide
      rw [he] at h2
      exact Option.noConfusion h2
    · intro _ _
      rfl
    · intro _
      rfl
  · simp only [guessHtmlFromRaw]
    rw [if_neg hr]
    refine ⟨?_, ?_, ?_, ?_⟩
    · intro i j h1 h2
      rw [h1, h2]
    · intro i j h1 h2 h3
      rw [h1, h2, h3]
    · intro h1 h2
      rw [h1, h2]
    · intro h3
      cases hh : (match sIndexOf (jsToLowerS raw) "<html" with
          | some i => some i
          | none => sIndexOf (jsToLowerS raw) "<!doctype html") with
      | some i =>
        show (match sLastIndexOf (jsToLowerS raw) "</html>" with
          | some j => jsSlice raw i (j + 7)
          | none => "") = ""
        rw [h3]
      | none =>
        rfl

/-- Witness for C7 on a lower- and upper-case document. -/
theorem c7_guess_html_amended_witness :
    sIndexOf (jsToLowerS "z<HTML>q</HTML>") "<html" = some 1 ∧
    sLastIndexOf (jsToLowerS "z<HTML>q</HTML>") "</html>" = some 8 ∧
    guessHtmlFromRaw "z<HTML>q</HTML>" = jsSlice "z<HTML>q</HTML>" 1 (8 + 7) := by
  refine ⟨by decide, by decide, ?_⟩
  exact (c7_guess_html_amended "z<HTML>q</HTML>").1 1 8 (by decide) (by decide)

theorem qpBytes_not_eq (c : Char) (rest : List Char) (hc : ¬ c = '=') :
    qpBytes (c :: rest) = charCode8 c :: qpBytes rest := by
  rw [qpBytes.eq_def]
  split
  · next heq => exact absurd heq (List.cons_ne_nil _ _)
  · next h1 h2 r heq =>
    injection heq with hch _
    exact absurd hch hc
  · next c2 r heq =>
    injection heq with hch htl
    subst hch
    subst htl
    rfl

theorem qpBytes_single (d : Char) : qpBytes [d] = [charCode8 d] := by
  rw [qpBytes.eq_def]
  split
  · next heq => exact absurd heq (List.cons_ne_nil _ _)
  · next h1 h2 r heq =>
    injection heq with _ htl
    exact absurd htl.symm (List.cons_ne_nil _ _)
  · next c2 r heq =>
    injection heq with hch htl
    subst hch
    subst htl
    rfl

theorem qpBytes_pair (d : Char) : qpBytes ['=', d] = [charCode8 '=', charCode8 d] := by
  rw [qpBytes.eq_def]
  split
  · next heq => exact absurd heq (List.cons_ne_nil _ _)
  · next h1 h2 r heq =>
    injection heq with _ htl
    injection htl with _ htl2
    exact absurd htl2.symm (List.cons_ne_nil _ _)
  · next c2 r heq =>
    injection heq with hch htl
    subst hch
    subst htl
    rw [qpBytes_single]

/-- C10: the quoted-printable decoder is total and lossless on malformed
escapes.  It removes soft line breaks (an equals sign directly followed by a
line ending) first; an escape with two hex digits becomes the corresponding
byte; an equals sign not followed by two hex digits, including one within
two characters of the end of input, is preserved literally as its own byte;
every other character is emitted as its own byte; and the final UTF-8
decode is the non-fatal total replacement decoder. -/
theorem c10_quoted_printable :
    (∀ s : String,
      decodeQuotedPrintable s = utf8DecodeReplace (qpBytes (rsbGo s.data))) ∧
    (∀ rest : List Char, rsbGo ('=' :: '\r' :: '\n' :: rest) = rsbGo rest) ∧
    (∀ rest : List Char, rsbGo ('=' :: '\n' :: rest) = rsbGo rest) ∧
    (∀ (h1 h2 : Char) (rest : List Char),
      hexDigit h1 = true → hexDigit h2 = true →
      qpBytes ('=' :: h1 :: h2 :: rest) =
        (hexVal h1 * 16 + hexVal h2) :: qpBytes rest) ∧
    (∀ (h1 h2 : Char) (rest : List Char),
      ¬(hexDigit h1 = true ∧ hexDigit h2 = true) →
      qpBytes ('=' :: h1 :: h2 :: rest) =
        charCode8 '=' :: qpBytes (h1 :: h2 :: rest)) ∧
    qpBytes ['='] = [charCode8 '='] ∧
    (∀ d : Char, qpBytes ['=', d] = [charCode8 '=', charCode8 d]) ∧
    (∀ (c : Char) (rest : List Char), ¬ c = '=' →
      qpBytes (c :: rest) = charCode8 c :: qpBytes rest) ∧
    (∀ l : List Char, (∀ c ∈ l, ¬ c = '=') →
      qpBytes l = l.map charCode8) := by
  refine ⟨fun _ => rfl, fun _ => rfl, fun _ => rfl, ?_, ?_, rfl, qpBytes_pair,
    qpBytes_not_eq, ?_⟩
  · intro h1 h2 rest hh1 hh2
    show (if hexDigit h1 = true ∧ hexDigit h2 = true
      then (hexVal h1 * 16 + hexVal h2) :: qpBytes rest
      else charCode8 '=' :: qpBytes (h1 :: h2 :: rest)) =
      (hexVal h1 * 16 + hexVal h2) :: qpBytes rest
    rw [if_pos ⟨hh1, hh2⟩]
  · intro h1 h2 rest hno
    show (if hexDigit h1 = true ∧ hexDigit h2 = true
      then (hexVal h1 * 16 + hexVal h2) :: qpBytes rest
      else charCode8 '=' :: qpBytes (h1 :: h2 :: rest)) =
      charCode8 '=' :: qpBytes (h1 :: h2 :: rest)
    rw [if_neg hno]
  · intro l
    induction l with
    | nil => intro _; rfl
    | cons c rest ih =>
      intro hall
      rw [qpBytes_not_eq c rest (hall c (List.mem_cons_self _ _)), List.map_cons,
        ih fun x hx => hall x (List.mem_cons_of_mem _ hx)]

/-- C10 witness: the escape conversion on "=4F", the literal preservation
of a malformed escape "=z!", an equals sign before a non-hex tail, and the
byte-for-byte emission of an equals-free list, each instantiated. -/
theorem c10_quoted_printable_witness :
    (hexDigit '4' = true ∧ hexDigit 'F' = true ∧
      qpBytes ['=', '4', 'F'] = (hexVal '4' * 16 + hexVal 'F') :: qpBytes []) ∧
    (¬(hexDigit 'z' = true ∧ hexDigit '!' = true) ∧
      qpBytes ['=', 'z', '!'] = charCode8 '=' :: qpBytes ['z', '!']) ∧
    (¬ 'a' = '=' ∧ qpBytes ['a', '='] = charCode8 'a' :: qpBytes ['=']) ∧
    ((∀ c ∈ ['a', 'b'], ¬ c = '=') ∧ qpBytes ['a', 'b'] = ['a', 'b'].map charCode8) :=
  ⟨⟨by decide, by decide,
      c10_quoted_printable.2.2.2.1 '4' 'F' [] (by decide) (by decide)⟩,
   ⟨by decide, c10_quoted_printable.2.2.2.2.1 'z' '!' [] (by decide)⟩,
   ⟨by decide, c10_quoted_printable.2.2.2.2.2.2.2.1 'a' ['='] (by decide)⟩,
   ⟨by decide, c10_quoted_printable.2.2.2.2.2.2.2.2 ['a', 'b'] (by decide)⟩⟩
end Mailfree
